import Mathlib

deriving instance DecidableEq for Except

namespace Sheriff

/-- Code-unit lexicographic comparison of character lists, used to model
the JavaScript comparator conventions (`localeCompare` restricted to the
ASCII identifiers that appear in this program). -/
def charsLe : List Char → List Char → Bool
  | [], _ => true
  | _ :: _, [] => false
  | a :: as, b :: bs =>
    if a.toNat < b.toNat then true
    else if b.toNat < a.toNat then false
    else charsLe as bs

/-- Code-unit order on strings. -/
def strLe (a b : String) : Bool := charsLe a.data b.data

/-- Sheriff-side access level, the TypeScript union
`read | triage | write | maintain | admin`. -/
inductive SheriffAccessLevel
  | read
  | triage
  | write
  | maintain
  | admin
  deriving DecidableEq, Repr, Fintype

/-- Platform-native access level, the TypeScript union
`pull | triage | push | maintain | admin`. -/
inductive GitHubAccessLevel
  | pull
  | triage
  | push
  | maintain
  | admin
  deriving DecidableEq, Repr, Fintype

/-- Permissions bitmap as returned by the platform for teams and
collaborators.  The optional `triage` and `maintain` keys of the source
are falsy when absent, so absent and `false` coincide. -/
structure GitHubPermissions where
  pull : Bool
  triage : Bool
  push : Bool
  maintain : Bool
  admin : Bool
  deriving DecidableEq, Repr, Fintype

/-- Embeds `sheriffLevelToGitHubLevel`.  The source `switch` covers every
member of the union, so the trailing `throw` after it is unreachable for
well-typed input; the total Lean match reflects exactly that switch. -/
def sheriffLevelToGitHubLevel : SheriffAccessLevel → GitHubAccessLevel
  | .read => .pull
  | .triage => .triage
  | .write => .push
  | .maintain => .maintain
  | .admin => .admin

/-- String form of a sheriff access level as it appears in the YAML
config and in the source switch labels. -/
def sheriffLevelStr : SheriffAccessLevel → String
  | .read => "read"
  | .triage => "triage"
  | .write => "write"
  | .maintain => "maintain"
  | .admin => "admin"

/-- String form of a platform access level. -/
def gitHubLevelStr : GitHubAccessLevel → String
  | .pull => "pull"
  | .triage => "triage"
  | .push => "push"
  | .maintain => "maintain"
  | .admin => "admin"

/-- Embeds `sheriffLevelToGitHubLevel` at the level of runtime strings,
keeping the trailing `throw` as `none`: the switch tests the five
labels in order and the fallthrough throws. -/
def sheriffLevelToGitHubLevelStr (accessLevel : String) : Option String :=
  if accessLevel = "read" then some "pull"
  else if accessLevel = "triage" then some "triage"
  else if accessLevel = "write" then some "push"
  else if accessLevel = "maintain" then some "maintain"
  else if accessLevel = "admin" then some "admin"
  else none

/-- Embeds `gitHubPermissionsToSheriffLevel`: the guards test `admin`,
`maintain`, `push`, `triage`, `pull` in that order and the final `throw`
(no flag set) is `none`. -/
def gitHubPermissionsToSheriffLevel (gitHubPermissions : GitHubPermissions) :
    Option SheriffAccessLevel :=
  if gitHubPermissions.admin then some .admin
  else if gitHubPermissions.maintain then some .maintain
  else if gitHubPermissions.push then some .write
  else if gitHubPermissions.triage then some .triage
  else if gitHubPermissions.pull then some .read
  else none

/-- Spec-side description used by claim C9: the platform-native name of
the highest true flag of a bitmap, in the order
`admin, maintain, push, triage, pull`. -/
def highestTrueFlag (p : GitHubPermissions) : Option GitHubAccessLevel :=
  if p.admin then some .admin
  else if p.maintain then some .maintain
  else if p.push then some .push
  else if p.triage then some .triage
  else if p.pull then some .pull
  else none

/-- Spec-side description used by claim C9: the sheriff level named by
the bijection for each platform level. -/
def correspondingSheriffLevel : GitHubAccessLevel → SheriffAccessLevel
  | .pull => .read
  | .triage => .triage
  | .push => .write
  | .maintain => .maintain
  | .admin => .admin

/-- Alert severity used by the message builder. -/
inductive Severity
  | normal
  | warning
  | critical
  deriving DecidableEq, Repr

/-- One entry of the JSON-encoded `SHERIFF_TRUSTED_RELEASER_POLICIES`
environment variable. -/
structure ReleasePolicy where
  repository : String
  releaser : String
  mustMatchRepo : String
  actions : List String
  deriving DecidableEq, Repr

/-- Payload of a `release` webhook event, restricted to the fields the
hook reads.  `sender` is optional in the webhook schema. -/
structure ReleaseEvent where
  sender : Option String
  action : String
  repoName : String
  tagName : String
  deriving DecidableEq, Repr

/-- Embeds the policy loop of the `release` hook.  `exists?` is the read
oracle for `getReleaseByTag` on `(mustMatchRepo, tag)`: `true` when the
fetch succeeds, `false` when it throws (release absent).  The loop
carries the current severity; a successful fetch returns from the hook
(`none`), an absent release forces the carried severity to critical and
the loop continues with the remaining policies. -/
def releasePoliciesPass (exists? : String → String → Bool) (ev : ReleaseEvent) :
    List ReleasePolicy → Severity → Option Severity
  | [], sev => some sev
  | policy :: rest, sev =>
    if policy.actions.contains ev.action ∧ ev.sender = some policy.releaser ∧
        policy.repository = ev.repoName then
      if exists? policy.mustMatchRepo ev.tagName then none
      else releasePoliciesPass exists? ev rest .critical
    else releasePoliciesPass exists? ev rest sev

/-- Embeds the `release` webhook hook.  The result is the severity of
the posted alert, or `none` when the hook returns without posting. -/
def releaseHook (trustedReleasers : Option (List String))
    (policies : List ReleasePolicy) (exists? : String → String → Bool)
    (ev : ReleaseEvent) : Option Severity :=
  if (trustedReleasers.getD []).contains (ev.sender.getD "") then none
  else
    match releasePoliciesPass exists? ev policies .normal with
    | none => none
    | some sev =>
      if ev.action = "deleted" then some .critical
      else if ev.action = "unpublished" ∨ ev.action = "edited" then some .warning
      else if ev.action = "created" ∨ ev.action = "published" ∨
          ev.action = "prereleased" then some sev
      else none

/-- Value of a custom property: a scalar string, an array of strings, or
JSON null as the platform reports unset values. -/
inductive PropValue
  | str (s : String)
  | arr (l : List String)
  | nullv
  deriving DecidableEq, Repr

/-- Association-list view of a JavaScript record with string keys.
Object keys are unique, so the first match is the only match. -/
def recordGet {α : Type} (m : List (String × α)) (k : String) : Option α :=
  (m.find? (fun p => p.1 = k)).map Prod.snd

/-- Declared custom property (`CustomProperty` in `types.ts`). -/
structure CustomProperty where
  property_name : String
  value_type : String
  required : Option Bool
  default_value : Option PropValue
  description : Option String
  allowed_values : Option (List String)
  deriving DecidableEq, Repr

/-- Declared team (`TeamConfig` in `types.ts`), restricted to the fields
the reconciler core reads; the plugin-only fields are out of scope. -/
structure TeamConfig where
  name : String
  members : List String
  maintainers : List String
  parent : Option String
  secret : Option Bool
  deriving DecidableEq, Repr

/-- Declared `require_pull_request` block of a ruleset. -/
structure RequirePullRequest where
  dismiss_stale_reviews_on_push : Option Bool
  require_code_owner_review : Option Bool
  require_last_push_approval : Option Bool
  required_approving_review_count : Option Nat
  required_review_thread_resolution : Option Bool
  allowed_merge_methods : Option (List String)
  deriving DecidableEq, Repr

/-- Declared status check of a ruleset. -/
structure StatusCheck where
  context : String
  app_id : Nat
  deriving DecidableEq, Repr

/-- Declared basic rule token (`BasicRule` in `types.ts`). -/
inductive BasicRule
  | restrict_creation
  | restrict_update
  | restrict_deletion
  | require_linear_history
  | require_signed_commits
  | restrict_force_push
  deriving DecidableEq, Repr

/-- Declared bypass block of a ruleset. -/
structure RulesetBypass where
  teams : Option (List String)
  apps : Option (List Nat)
  deriving DecidableEq, Repr

/-- Declared ref-name condition of a ruleset. -/
structure RefNameDecl where
  «include» : List String
  exclude : Option (List String)
  deriving DecidableEq, Repr

/-- Declared ruleset (`Ruleset` in `types.ts`); after validation, string
references have been replaced by the named common ruleset, so only the
concrete shape remains. -/
structure Ruleset where
  name : String
  target : String
  enforcement : Option String
  bypass : Option RulesetBypass
  ref_name : RefNameDecl
  rules : Option (List BasicRule)
  require_pull_request : Option RequirePullRequest
  require_status_checks : Option (List StatusCheck)
  deriving DecidableEq, Repr

/-- Per-repository settings overrides (`Partial<RepoSettings>`). -/
structure RepoSettingsPartial where
  has_wiki : Option Bool
  forks_need_actions_approval : Option Bool
  deriving DecidableEq, Repr

/-- Organization-wide repository defaults (`repository_defaults`);
`has_wiki` is required by the schema. -/
structure RepoDefaults where
  has_wiki : Bool
  forks_need_actions_approval : Option Bool
  deriving DecidableEq, Repr

/-- Effective repository settings computed by `computeRepoSettings`. -/
structure RepoSettings where
  has_wiki : Bool
  forks_need_actions_approval : Option Bool
  deriving DecidableEq, Repr

/-- Declared repository (`RepositoryConfig` in `types.ts`), restricted
to the fields the reconciler core reads. -/
structure RepositoryConfig where
  name : String
  teams : Option (List (String × SheriffAccessLevel))
  external_collaborators : Option (List (String × SheriffAccessLevel))
  settings : Option RepoSettingsPartial
  visibility : Option String
  properties : Option (List (String × PropValue))
  rulesets : Option (List Ruleset)
  deriving DecidableEq, Repr

/-- Declared organization (`OrganizationConfig` in `types.ts`). -/
structure OrganizationConfig where
  organization : String
  repository_defaults : RepoDefaults
  teams : List TeamConfig
  repositories : List RepositoryConfig
  customProperties : Option (List CustomProperty)
  deriving DecidableEq, Repr

/-- Outcome alphabet `PermissionEnforcementAction` of the enforcement
engine: `ALLOW_CHANGE`, `REVERT_CHANGE`, `ADJUSTED_CHANGE`. -/
inductive PermissionEnforcementAction
  | allowChange
  | revertChange
  | adjustedChange
  deriving DecidableEq, Repr

/-- Action field of a `member.*` webhook event. -/
inductive MemberAction
  | added
  | edited
  | removed
  deriving DecidableEq, Repr

/-- Direct collaborator as observed on the platform. -/
structure ObservedCollaborator where
  id : Nat
  login : String
  permissions : GitHubPermissions
  deriving DecidableEq, Repr

/-- Payload fields of a `member.added`, `member.edited` or
`member.removed` webhook event that the enforcement reads. -/
structure MemberEvent where
  repoOwner : String
  repoName : String
  memberLogin : String
  memberId : Nat
  action : MemberAction
  deriving DecidableEq, Repr

/-- Mutating platform calls issued by the webhook enforcement. -/
inductive WebhookCall
  | removeCollaborator (owner repo username : String)
  | addCollaborator (owner repo username : String) (permission : GitHubAccessLevel)
  deriving DecidableEq, Repr

/-- Result of `takeActionOnRepositoryCollaborator` together with the
mutating calls it issued. -/
structure EnforcementResult where
  action : PermissionEnforcementAction
  expectedLevel : Option SheriffAccessLevel
  calls : List WebhookCall
  deriving DecidableEq, Repr

/-- Embeds `takeActionOnRepositoryCollaborator`.  The reads the source
performs (validated config, org owners, direct collaborators) are
inputs: `orgOwnerIds` is the id set of `listMembers(role=admin)` and
`allCollaborators` the direct-collaborator listing fetched when the
declared level exists.  A decode failure of the observed permissions
bitmap is the thrown error of the converter. -/
def takeActionOnRepositoryCollaborator (allConfigs : List OrganizationConfig)
    (orgOwnerIds : List Nat) (allCollaborators : List ObservedCollaborator)
    (ev : MemberEvent) : Except String EnforcementResult :=
  match allConfigs.find? (fun c => c.organization = ev.repoOwner) with
  | none => .ok ⟨.allowChange, none, []⟩
  | some orgConfig =>
    match orgConfig.repositories.find? (fun r => r.name = ev.repoName) with
    | none => .ok ⟨.allowChange, none, []⟩
    | some targetRepoConfig =>
      let expectedLevel :=
        (targetRepoConfig.external_collaborators.getD []).find?
            (fun p => p.1 = ev.memberLogin) |>.map Prod.snd
      if orgOwnerIds.contains ev.memberId then
        .ok ⟨.allowChange, some .admin, []⟩
      else
        match expectedLevel with
        | none =>
          if ev.action = .removed then .ok ⟨.allowChange, none, []⟩
          else
            .ok ⟨.revertChange, none,
              [.removeCollaborator ev.repoOwner ev.repoName ev.memberLogin]⟩
        | some lvl =>
          match allCollaborators.find? (fun c => c.id = ev.memberId) with
          | none =>
            .ok ⟨(if ev.action = .removed then .revertChange else .adjustedChange),
              some lvl,
              [.addCollaborator ev.repoOwner ev.repoName ev.memberLogin
                (sheriffLevelToGitHubLevel lvl)]⟩
          | some currentCollaborator =>
            match gitHubPermissionsToSheriffLevel currentCollaborator.permissions with
            | none => .error "Attempted to convert unhandleable github permissions object"
            | some currentSheriffLevel =>
              if currentSheriffLevel = lvl then .ok ⟨.allowChange, some lvl, []⟩
              else
                .ok ⟨(if ev.action = .removed then .revertChange else .adjustedChange),
                  some lvl,
                  [.addCollaborator ev.repoOwner ev.repoName ev.memberLogin
                    (sheriffLevelToGitHubLevel lvl)]⟩

/-- Embeds the alert behaviour shared by the `member.added`,
`member.removed` and `member.edited` hooks: the hook returns without an
alert when the enforcement allowed the change (or threw), and otherwise
posts exactly one alert, always at severity critical. -/
def memberHookAlertSeverities (res : Except String EnforcementResult) : List Severity :=
  match res with
  | .error _ => []
  | .ok r => if r.action = .allowChange then [] else [.critical]

/-- Declared external-collaborator level of a login on a repository,
`targetRepoConfig.external_collaborators?.[member.login]`. -/
def expectedLevelOf (rc : RepositoryConfig) (login : String) : Option SheriffAccessLevel :=
  ((rc.external_collaborators.getD []).find? (fun p => p.1 = login)).map Prod.snd

/-! ## Ruleset normalizer (`ruleset.ts`) -/

/-- Team as listed by `listAllTeams`.  The id is an integer because the
dry run pushes a sentinel team with id `-1`. -/
structure ObservedTeam where
  id : Int
  name : String
  slug : String
  privacy : Option String
  parent : Option String
  deriving DecidableEq, Repr

/-- Wire shape of a required status check,
`\x7b context, integration_id: app_id \x7d`. -/
structure StatusCheckWire where
  context : String
  integration_id : Nat
  deriving DecidableEq, Repr

/-- Parameters of a generated `pull_request` rule entry.  The last field
only occurs in observed data (upstream noise); the normalizer always
produces `none` and the differ strips it. -/
structure PullRequestParams where
  dismiss_stale_reviews_on_push : Bool
  require_code_owner_review : Bool
  require_last_push_approval : Bool
  required_approving_review_count : Nat
  required_review_thread_resolution : Bool
  allowed_merge_methods : List String
  automatic_copilot_code_review_enabled : Option Bool
  deriving DecidableEq, Repr

/-- One entry of the generated `rules` array: a parameterless typed
entry, a `pull_request` entry, or a `required_status_checks` entry. -/
inductive RuleEntry
  | basic (type : String)
  | pull_request (parameters : PullRequestParams)
  | required_status_checks (required_status_checks : List StatusCheckWire)
      (strict_required_status_checks_policy : Bool)
  deriving DecidableEq, Repr

/-- The `type` field of a generated rule entry. -/
def RuleEntry.type : RuleEntry → String
  | .basic t => t
  | .pull_request _ => "pull_request"
  | .required_status_checks _ _ => "required_status_checks"

/-- One bypass actor of the wire shape. -/
structure BypassActor where
  actor_id : Int
  actor_type : String
  bypass_mode : String
  deriving DecidableEq, Repr

/-- The `conditions.ref_name` object of the wire shape. -/
structure RefNameCondition where
  «include» : List String
  exclude : List String
  deriving DecidableEq, Repr

/-- Wire shape produced by `rulesetToGithub`. -/
structure GithubRuleset where
  name : String
  target : String
  enforcement : String
  bypass_actors : List BypassActor
  conditions : RefNameCondition
  rules : List RuleEntry
  deriving DecidableEq, Repr

/-- Order in which the generated rules are sorted: by `type`, using the
comparator `a.type.localeCompare(b.type)`. -/
def ruleEntryLe (a b : RuleEntry) : Prop := strLe a.type b.type = true

instance : DecidableRel ruleEntryLe := fun a b =>
  inferInstanceAs (Decidable (strLe a.type b.type = true))

/-- Order in which bypass actors are sorted, the comparator
`sortBypassActors`: by `actor_type` via localeCompare, ties broken by
ascending `actor_id`. -/
def bypassActorLe (a b : BypassActor) : Prop :=
  (a.actor_type = b.actor_type ∧ a.actor_id ≤ b.actor_id) ∨
  (a.actor_type ≠ b.actor_type ∧ strLe a.actor_type b.actor_type = true)

instance : DecidableRel bypassActorLe := fun a b => by
  unfold bypassActorLe; infer_instance

/-- Typed entry generated for each declared basic rule token, the
`switch` of `rulesetToGithub`. -/
def basicRuleEntry : BasicRule → RuleEntry
  | .require_linear_history => .basic "required_linear_history"
  | .require_signed_commits => .basic "required_signatures"
  | .restrict_creation => .basic "creation"
  | .restrict_deletion => .basic "deletion"
  | .restrict_update => .basic "update"
  | .restrict_force_push => .basic "non_fast_forward"

/-- The `pull_request` entry generated when `require_pull_request` is
declared, with the default backfills of the source. -/
def prGeneratedRules (ruleset : Ruleset) : List RuleEntry :=
  match ruleset.require_pull_request with
  | some pr =>
    [.pull_request ⟨pr.dismiss_stale_reviews_on_push.getD false,
      pr.require_code_owner_review.getD false,
      pr.require_last_push_approval.getD false,
      pr.required_approving_review_count.getD 0,
      pr.required_review_thread_resolution.getD false,
      pr.allowed_merge_methods.getD ["squash"], none⟩]
  | none => []

/-- The `required_status_checks` entry generated when
`require_status_checks` is declared. -/
def statusChecksGeneratedRules (ruleset : Ruleset) : List RuleEntry :=
  match ruleset.require_status_checks with
  | some checks =>
    [.required_status_checks (checks.map fun c => ⟨c.context, c.app_id⟩) false]
  | none => []

/-- Resolution of a bypass team name to a `Team` actor using the
observed team list; the source dereferences `find(...)!.id`, so a
missing team is a thrown `TypeError`. -/
def resolveTeamBypassActor (allTeams : List ObservedTeam) (teamName : String) :
    Except String BypassActor :=
  match allTeams.find? (fun t => t.name = teamName) with
  | some t => .ok ⟨t.id, "Team", "always"⟩
  | none => .error ("cannot read id of undefined team " ++ teamName)

/-- Record returned by `rulesetToGithub` once the bypass actors are
known: the generated rules sorted by type and the defaults for
`enforcement` and `conditions.ref_name.exclude` filled in. -/
def rulesetToGithubWith (ruleset : Ruleset) (bypassActors : List BypassActor) :
    GithubRuleset :=
  { name := ruleset.name, target := ruleset.target,
    enforcement := ruleset.enforcement.getD "active",
    bypass_actors := bypassActors,
    conditions := ⟨ruleset.ref_name.include, ruleset.ref_name.exclude.getD []⟩,
    rules := List.insertionSort ruleEntryLe
      ((ruleset.rules.getD []).map basicRuleEntry ++ prGeneratedRules ruleset ++
        statusChecksGeneratedRules ruleset) }

/-- Embeds `rulesetToGithub`: expands the declared rule tokens, appends
the `pull_request` and `required_status_checks` entries, sorts the rules
by type, builds and sorts the bypass actors (apps as `Integration`,
teams resolved against the observed team list as `Team`), and fills the
defaults.  A bypass team missing from the observed list is the thrown
`TypeError` of the source. -/
def rulesetToGithub (ruleset : Ruleset) (allTeams : List ObservedTeam) :
    Except String GithubRuleset :=
  match ruleset.bypass with
  | none => .ok (rulesetToGithubWith ruleset [])
  | some bypass =>
    match (bypass.teams.getD []).mapM (resolveTeamBypassActor allTeams) with
    | .error e => .error e
    | .ok teams =>
      .ok (rulesetToGithubWith ruleset
        (List.insertionSort bypassActorLe
          (((bypass.apps.getD []).map fun appId =>
            BypassActor.mk (Int.ofNat appId) "Integration" "always") ++ teams)))

/-- Strips the upstream-only noise field from the first `pull_request`
entry, as the differ does before comparing. -/
def stripFirstPullRequestNoise : List RuleEntry → List RuleEntry
  | [] => []
  | .pull_request p :: rest =>
    .pull_request { p with automatic_copilot_code_review_enabled := none } :: rest
  | r :: rest => r :: stripFirstPullRequestNoise rest

/-- Observed ruleset as fetched from the platform (full form). -/
structure ObservedRuleset where
  id : Nat
  name : String
  target : String
  enforcement : String
  bypass_actors : List BypassActor
  conditions : RefNameCondition
  rules : List RuleEntry
  deriving DecidableEq, Repr

/-- Projection of an observed ruleset into the normalized shape used by
`getDifferenceWithGithubRuleset`: sort the bypass actors and rules with
the same comparators and strip the noise field of the `pull_request`
entry. -/
def projectGithubRuleset (g : ObservedRuleset) : GithubRuleset :=
  { name := g.name, target := g.target, enforcement := g.enforcement,
    bypass_actors := List.insertionSort bypassActorLe g.bypass_actors,
    conditions := g.conditions,
    rules := stripFirstPullRequestNoise (List.insertionSort ruleEntryLe g.rules) }

/-- Embeds the branch-relevant content of `getDifferenceWithGithubRuleset`:
whether the jest diff of the normalized declared shape against the
projected observed shape is non-empty.  Equality of the two canonical
values is structural, so the diff is empty exactly when they are equal;
the rendered diff text is presentation only and is not reproduced. -/
def getDifferenceWithGithubRuleset (ruleset : GithubRuleset)
    (githubRuleset : Option ObservedRuleset) : Bool :=
  match githubRuleset with
  | some g => decide (ruleset ≠ projectGithubRuleset g)
  | none => true

/-! ## Reconciler data (`permissions/run.ts`) -/

/-- Slack-style block appended to the message builder.  The org banner
block that `main` unshifts is kept as its own constructor. -/
inductive Block
  | context (text : String)
  | warning (text : String)
  | critical (text : String)
  | divider
  | orgBanner (org : String)
  deriving DecidableEq, Repr

/-- Team membership role used by `addOrUpdateMembershipForUserInOrg`. -/
inductive TeamRole
  | member
  | maintainer
  deriving DecidableEq, Repr

/-- Membership mutation on one team:
`addOrUpdateMembershipForUserInOrg` or `removeMembershipForUserInOrg`. -/
inductive TeamCall
  | setRole (username : String) (role : TeamRole)
  | remove (username : String)
  deriving DecidableEq, Repr

/-- The user a membership call is about. -/
def TeamCall.user : TeamCall → String
  | .setRole u _ => u
  | .remove u => u

/-- Payload of `createOrUpdateCustomProperty` as assembled by the
custom-property step; `description` is included only when truthy,
`default_value` when not undefined, and `allowed_values` only for the
select types. -/
structure PropertyPayload where
  custom_property_name : String
  value_type : String
  required : Bool
  description : Option String
  default_value : Option PropValue
  allowed_values : Option (List String)
  deriving DecidableEq, Repr

/-- One custom-property value pair, both as declared (mapped) and as
observed via `getCustomPropertiesValues`. -/
structure PropEntry where
  property_name : String
  value : PropValue
  deriving DecidableEq, Repr

/-- Mutating platform calls issued by the reconciler, one constructor
per mutating endpoint that appears in `permissions/run.ts`. -/
inductive MainCall
  | createOrUpdateCustomProperty (org : String) (payload : PropertyPayload)
  | removeCustomProperty (org : String) (propertyName : String)
  | createInvitation (org : String) (inviteeId : Nat)
  | deleteTeam (org : String) (slug : String)
  | createTeam (org : String) (name : String)
  | updateTeamPrivacy (org : String) (slug : String) (privacy : String)
  | updateTeamParent (org : String) (slug : String) (parentTeamId : Int)
  | teamMembership (org : String) (slug : String) (call : TeamCall)
  | createRepo (org : String) (name : String) (visibility : Option String)
  | removeTeamFromRepo (slug : String) (repo : String)
  | setTeamRepoPermission (slug : String) (repo : String)
      (permission : GitHubAccessLevel)
  | deleteRepoInvitation (repo : String) (invitationId : Nat)
  | updateRepoInvitation (repo : String) (invitationId : Nat)
      (permissions : SheriffAccessLevel)
  | removeCollaborator (repo : String) (username : String)
  | addCollaborator (repo : String) (username : String)
      (permission : GitHubAccessLevel)
  | updateRepoHasWiki (repo : String) (hasWiki : Bool)
  | setForkPrApproval (repo : String)
  | updateRepoPrivate (repo : String) (isPrivate : Bool)
  | upsertRepoProperties (repo : String) (properties : List PropEntry)
  | deleteRepoRuleset (repo : String) (rulesetId : Nat)
  | updateRepoRuleset (repo : String) (rulesetId : Nat) (payload : GithubRuleset)
  | createRepoRuleset (repo : String) (payload : GithubRuleset)
  deriving DecidableEq, Repr

/-- Gate shared by every mutation site: `if (!IS_DRY_RUN) await call`.
The textual message is appended regardless; only the call is gated. -/
def gated (dry : Bool) (calls : List MainCall) : List MainCall :=
  if dry then [] else calls

/-- Team attached to a repository as listed by `listTeams`. -/
structure ObservedTeamOnRepo where
  name : String
  slug : String
  permissions : GitHubPermissions
  deriving DecidableEq, Repr

/-- Pending repository invitation as listed by `listInvitations`; the
`permissions` string is compared as-is against the declared level. -/
structure ObservedInvite where
  id : Nat
  inviteeLogin : String
  permissions : String
  deriving DecidableEq, Repr

/-- Repository as listed by `listAllOrgRepos`, restricted to the fields
the reconciler reads. -/
structure ObservedRepo where
  name : String
  archived : Bool
  has_wiki : Bool
  isPrivate : Bool
  stargazers_count : Option Nat
  deriving DecidableEq, Repr

/-- Prefetched per-repository metadata (`loadRepositoryMetadata`). -/
structure RepoMetadata where
  currentTeams : List ObservedTeamOnRepo
  currentInvites : List ObservedInvite
  currentCollaborators : List ObservedCollaborator
  currentRulesets : Option (List ObservedRuleset)
  deriving DecidableEq, Repr

/-- Embeds `computeRepoSettings`: field-by-field fallback from
`repo.settings` to `repository_defaults`. -/
def computeRepoSettings (config : OrganizationConfig) (repo : RepositoryConfig) :
    RepoSettings :=
  { has_wiki :=
      match repo.settings with
      | none => config.repository_defaults.has_wiki
      | some s => s.has_wiki.getD config.repository_defaults.has_wiki,
    forks_need_actions_approval :=
      match repo.settings with
      | none => config.repository_defaults.forks_need_actions_approval
      | some s =>
        match s.forks_need_actions_approval with
        | none => config.repository_defaults.forks_need_actions_approval
        | some v => some v }

/-- The converter applied to an observed bitmap, with the thrown error
of the source when no flag is set. -/
def decodePerm (p : GitHubPermissions) : Except String SheriffAccessLevel :=
  match gitHubPermissionsToSheriffLevel p with
  | some l => .ok l
  | none => .error "Attempted to convert unhandleable github permissions object"

/-- JavaScript truthiness of a property value: the empty string and
null are falsy, arrays are truthy. -/
def jsTruthy : PropValue → Bool
  | .str s => s ≠ ""
  | .arr _ => true
  | .nullv => false

/-- Template-string rendering of a property value. -/
def propValueToString : PropValue → String
  | .str s => s
  | .arr l => String.intercalate "," l
  | .nullv => "null"

/-! ## Repository reconcile (`checkRepository`) -/

/-- First loop of `checkRepository`: every attached team not declared is
removed, every declared attached team observed at a different level is
updated.  Decoding the observed bitmap happens before the block is
appended, as in the source template string. -/
def checkRepoTeamsSweep (dry : Bool) (org : String) (repo : RepositoryConfig) :
    List ObservedTeamOnRepo → Except String (List Block × List MainCall)
  | [] => .ok ([], [])
  | currentTeam :: rest => do
    let (bs, cs) ←
      match recordGet (repo.teams.getD []) currentTeam.name with
      | none => do
        let level ← decodePerm currentTeam.permissions
        pure ([Block.context (":fire: Removing `" ++ currentTeam.name ++
            "` team from repo `" ++ repo.name ++ "` used to have `" ++
            sheriffLevelStr level ++ "`")],
          gated dry [.removeTeamFromRepo currentTeam.slug repo.name])
      | some supposedLevel => do
        let currentLevel ← decodePerm currentTeam.permissions
        if currentLevel = supposedLevel then pure ([], [])
        else
          pure ([Block.context (":arrows_counterclockwise: Changing `" ++
              currentTeam.name ++ "` team in repo `" ++ repo.name ++
              "` from access level `" ++ sheriffLevelStr currentLevel ++
              "` :arrow_right: `" ++ sheriffLevelStr supposedLevel ++ "`")],
            gated dry [.setTeamRepoPermission currentTeam.slug repo.name
              (sheriffLevelToGitHubLevel supposedLevel)])
    let (bs2, cs2) ← checkRepoTeamsSweep dry org repo rest
    pure (bs ++ bs2, cs ++ cs2)

/-- Second loop of `checkRepository`: every declared team not attached
is added at the declared level.  `findTeam` stands for the awaited
`findTeamByName` call of the non-dry branch, which resolves the slug
and may itself create the team. -/
def checkRepoAddTeamsSweep (dry : Bool) (repo : RepositoryConfig)
    (currentTeams : List ObservedTeamOnRepo)
    (findTeam : String → List Block × List MainCall × ObservedTeam) :
    List (String × SheriffAccessLevel) → List Block × List MainCall
  | [] => ([], [])
  | (supposedTeamName, level) :: rest =>
    let (bs, cs) :=
      if currentTeams.any (fun currentTeam => currentTeam.name = supposedTeamName) then
        ([], [])
      else
        let block := Block.context (":heavy_plus_sign: Adding `" ++
          supposedTeamName ++ "` team to repo `" ++ repo.name ++
          "` at base access level `" ++ sheriffLevelStr level ++ "`")
        if dry then ([block], [])
        else
          let (fb, fc, team) := findTeam supposedTeamName
          ([block] ++ fb,
            fc ++ [.setTeamRepoPermission team.slug repo.name
              (sheriffLevelToGitHubLevel level)])
    let (bs2, cs2) := checkRepoAddTeamsSweep dry repo currentTeams findTeam rest
    (bs ++ bs2, cs ++ cs2)

/-- Third loop of `checkRepository`: pending invitations are deleted
when the invitee is not declared, and updated when the declared level
differs from the invitation permission string. -/
def checkRepoInvitesSweep (dry : Bool) (repo : RepositoryConfig) :
    List ObservedInvite → List Block × List MainCall
  | [] => ([], [])
  | currentInvite :: rest =>
    let (bs, cs) :=
      match recordGet (repo.external_collaborators.getD [])
          currentInvite.inviteeLogin with
      | none =>
        ([Block.context (":fire: Removing Invite for `" ++
            currentInvite.inviteeLogin ++ "` from repo `" ++ repo.name ++
            "` would have had `" ++ currentInvite.permissions ++ "`")],
          gated dry [.deleteRepoInvitation repo.name currentInvite.id])
      | some supposedLevel =>
        if currentInvite.permissions = sheriffLevelStr supposedLevel then ([], [])
        else
          ([Block.context (":arrows_counterclockwise: Changing invite for `" ++
              currentInvite.inviteeLogin ++ "` in repo `" ++ repo.name ++
              "` from access level `" ++ currentInvite.permissions ++
              "` :arrow_right: `" ++ sheriffLevelStr supposedLevel ++ "`")],
            gated dry [.updateRepoInvitation repo.name currentInvite.id
              supposedLevel])
    let (bs2, cs2) := checkRepoInvitesSweep dry repo rest
    (bs ++ bs2, cs ++ cs2)

/-- Fourth loop of `checkRepository`: direct collaborators are removed
when not declared and re-added at the declared level when the observed
level differs. -/
def checkRepoCollaboratorsSweep (dry : Bool) (repo : RepositoryConfig) :
    List ObservedCollaborator → Except String (List Block × List MainCall)
  | [] => .ok ([], [])
  | currentCollaborator :: rest => do
    let (bs, cs) ←
      match recordGet (repo.external_collaborators.getD [])
          currentCollaborator.login with
      | none => do
        let level ← decodePerm currentCollaborator.permissions
        pure ([Block.context (":fire: Removing Collaborator `" ++
            currentCollaborator.login ++ "` from repo `" ++ repo.name ++
            "` used to have `" ++ sheriffLevelStr level ++ "`")],
          gated dry [.removeCollaborator repo.name currentCollaborator.login])
      | some supposedLevel => do
        let currentLevel ← decodePerm currentCollaborator.permissions
        if currentLevel = supposedLevel then pure ([], [])
        else
          pure ([Block.context (":arrows_counterclockwise: Changing Collaborator `" ++
              currentCollaborator.login ++ "` in repo `" ++ repo.name ++
              "` from access level `" ++ sheriffLevelStr currentLevel ++
              "` :arrow_right: `" ++ sheriffLevelStr supposedLevel ++ "`")],
            gated dry [.addCollaborator repo.name currentCollaborator.login
              (sheriffLevelToGitHubLevel supposedLevel)])
    let (bs2, cs2) ← checkRepoCollaboratorsSweep dry repo rest
    pure (bs ++ bs2, cs ++ cs2)

/-- Settings step of `checkRepository`: only `has_wiki` participates in
the update flag. -/
def checkRepoSettingsStep (dry : Bool) (config : OrganizationConfig)
    (repo : RepositoryConfig) (octoRepo : ObservedRepo) :
    List Block × List MainCall :=
  let computedSettings := computeRepoSettings config repo
  if octoRepo.has_wiki = computedSettings.has_wiki then ([], [])
  else
    ([Block.context (":speak_no_evil: Updating repostiory settings for `" ++
        octoRepo.name ++ "`")],
      gated dry [.updateRepoHasWiki octoRepo.name computedSettings.has_wiki])

/-- Fork-PR approval step of `checkRepository`: when the effective
settings require approval and the repo is not declared private, the
current policy (read oracle `forkApprovalPolicy`) is updated unless it
already equals `all_external_contributors`. -/
def checkRepoForkApprovalStep (dry : Bool) (config : OrganizationConfig)
    (repo : RepositoryConfig) (forkApprovalPolicy : Option String) :
    List Block × List MainCall :=
  let computedSettings := computeRepoSettings config repo
  if computedSettings.forks_need_actions_approval = some true ∧
      ¬ repo.visibility = some "private" then
    if forkApprovalPolicy = some "all_external_contributors" then ([], [])
    else
      ([Block.context (":lock: Setting fork PR contributor approval to require all external contributors for `" ++
          repo.name ++ "`")],
        gated dry [.setForkPrApproval repo.name])
  else ([], [])

/-- Visibility step of `checkRepository`: `current` skips, otherwise a
difference between the declared and observed privacy triggers an update
only when the stargazer count is known and below 100; an unknown count
or a count of at least 100 yields a critical alert and no mutation. -/
def checkRepoVisibilityStep (dry : Bool) (repo : RepositoryConfig)
    (octoRepo : ObservedRepo) : List Block × List MainCall :=
  let repoVisibility := repo.visibility.getD "public"
  if repoVisibility = "current" then ([], [])
  else
    let shouldBePrivate : Bool := repoVisibility = "private"
    if octoRepo.isPrivate = shouldBePrivate then ([], [])
    else
      let refuse : String → List Block × List MainCall := fun stars =>
        ([Block.critical (":octagonal_sign: Aborting repository visibility update for `" ++
            octoRepo.name ++ "` to `" ++ repoVisibility ++ "` as repo has `" ++
            stars ++ "` stargazers")], [])
      match octoRepo.stargazers_count with
      | none => refuse "undefined"
      | some n =>
        if n ≥ 100 then refuse (toString n)
        else
          ([Block.context (":ninja: Updating repository visibility for `" ++
              octoRepo.name ++ "` to `" ++ repoVisibility ++ "`")],
            gated dry [.updateRepoPrivate octoRepo.name shouldBePrivate])

/-- Fifth loop of `checkRepository`: declared external collaborators
neither present nor invited are added at the declared level. -/
def checkRepoAddCollaboratorsSweep (dry : Bool) (repo : RepositoryConfig)
    (currentInvites : List ObservedInvite)
    (currentCollaborators : List ObservedCollaborator) :
    List (String × SheriffAccessLevel) → List Block × List MainCall
  | [] => ([], [])
  | (supposedCollaboratorName, level) :: rest =>
    let (bs, cs) :=
      if currentCollaborators.any
            (fun currentCollaborator =>
              currentCollaborator.login = supposedCollaboratorName) ∨
          currentInvites.any
            (fun currentInvite =>
              currentInvite.inviteeLogin = supposedCollaboratorName) then
        ([], [])
      else
        ([Block.context (":heavy_plus_sign: Adding Collaborator `" ++
            supposedCollaboratorName ++ "` to repo `" ++ repo.name ++
            "` at base access level `" ++ sheriffLevelStr level ++ "`")],
          gated dry [.addCollaborator repo.name supposedCollaboratorName
            (sheriffLevelToGitHubLevel level)])
    let (bs2, cs2) :=
      checkRepoAddCollaboratorsSweep dry repo currentInvites currentCollaborators rest
    (bs ++ bs2, cs ++ cs2)

/-- Order used to sort property entries, the comparator
`a.property_name.localeCompare(b.property_name)`. -/
def propEntryLe (a b : PropEntry) : Prop :=
  strLe a.property_name b.property_name = true

instance : DecidableRel propEntryLe := fun a b =>
  inferInstanceAs (Decidable (strLe a.property_name b.property_name = true))

/-- Custom-property values step of `checkRepository`: the declared
values, augmented by org-property defaults the repo does not override,
are sorted and compared against the sorted observed values; any
difference triggers a single bulk upsert of the sorted mapped list. -/
def checkRepoPropertiesStep (dry : Bool) (config : OrganizationConfig)
    (repo : RepositoryConfig) (observedProps : List PropEntry) :
    List Block × List MainCall :=
  match repo.properties with
  | none => ([], [])
  | some properties =>
    let mappedProperties := properties.map fun kv => PropEntry.mk kv.1 kv.2
    let augmented := mappedProperties ++
      ((config.customProperties.getD []).filter fun orgProp =>
        (match orgProp.default_value with
          | some v => jsTruthy v
          | none => false) &&
        !(mappedProperties.any fun m => m.property_name = orgProp.property_name)).map
        (fun orgProp =>
          PropEntry.mk orgProp.property_name (orgProp.default_value.getD .nullv))
    let mappedSorted := List.insertionSort propEntryLe augmented
    let observedSorted := List.insertionSort propEntryLe observedProps
    if observedSorted = mappedSorted then ([], [])
    else
      ([Block.context (":label: :synchronize: Syncing properties for repo `" ++
          repo.name ++ "` values `" ++
          String.intercalate ", " (mappedSorted.map fun p =>
            p.property_name ++ "=" ++ propValueToString p.value) ++ "`")],
        gated dry [.upsertRepoProperties repo.name mappedSorted])

/-- Rulesets loop over the observed rulesets: delete the undeclared
ones, diff the declared ones and update when the diff is non-empty.
The textual diff body of the source block is presentation only and is
not reproduced. -/
def checkRepoRulesetsSweep (dry : Bool) (repo : RepositoryConfig)
    (allTeams : List ObservedTeam) (expectedRulesets : List Ruleset) :
    List ObservedRuleset → Except String (List Block × List MainCall)
  | [] => .ok ([], [])
  | ruleset :: rest => do
    let (bs, cs) ←
      match expectedRulesets.find? (fun r => r.name = ruleset.name) with
      | none =>
        pure ([Block.context (":gavel: :fire: Removing Ruleset `" ++
            ruleset.name ++ "` from repo `" ++ repo.name ++
            "` as it\x27s not in the config")],
          gated dry [.deleteRepoRuleset repo.name ruleset.id])
      | some expectedRuleset => do
        let githubFormattedRuleset ← rulesetToGithub expectedRuleset allTeams
        if getDifferenceWithGithubRuleset githubFormattedRuleset (some ruleset) then
          pure ([Block.context (":gavel: :arrows_clockwise: Updating Ruleset `" ++
              ruleset.name ++ "` in repo `" ++ repo.name ++
              "` as we\x27ve detected changes")],
            gated dry [.updateRepoRuleset repo.name ruleset.id
              githubFormattedRuleset])
        else pure ([], [])
    let (bs2, cs2) ← checkRepoRulesetsSweep dry repo allTeams expectedRulesets rest
    pure (bs ++ bs2, cs ++ cs2)

/-- Creation loop over the rulesets declared but absent upstream. -/
def checkRepoRulesetsAdd (dry : Bool) (repo : RepositoryConfig)
    (allTeams : List ObservedTeam) :
    List Ruleset → Except String (List Block × List MainCall)
  | [] => .ok ([], [])
  | ruleset :: rest => do
    let githubFormattedRuleset ← rulesetToGithub ruleset allTeams
    let (bs2, cs2) ← checkRepoRulesetsAdd dry repo allTeams rest
    pure ([Block.context (":gavel: :new: Creating Ruleset `" ++ ruleset.name ++
        "` in repo `" ++ repo.name ++ "` as it does not exist")] ++ bs2,
      gated dry [.createRepoRuleset repo.name githubFormattedRuleset] ++ cs2)

/-- Rulesets step of `checkRepository`: runs only when the repo declares
rulesets and the metadata fetched them. -/
def checkRepoRulesetsStep (dry : Bool) (repo : RepositoryConfig)
    (allTeams : List ObservedTeam)
    (currentRulesets : Option (List ObservedRuleset)) :
    Except String (List Block × List MainCall) :=
  match repo.rulesets, currentRulesets with
  | some expectedRulesets, some current => do
    let rulesetsToAdd := expectedRulesets.filter fun ruleset =>
      !(current.any fun r => r.name = ruleset.name)
    let (bs, cs) ← checkRepoRulesetsSweep dry repo allTeams expectedRulesets current
    let (bs2, cs2) ← checkRepoRulesetsAdd dry repo allTeams rulesetsToAdd
    pure (bs ++ bs2, cs ++ cs2)
  | _, _ => .ok ([], [])

/-- Embeds `checkRepository`: the sweep and step functions above,
concatenated in source order.  The reads of the source are inputs:
`meta` is the prefetched metadata, `octoRepo` the repo found again in
the (possibly refreshed) repo listing, `forkApprovalPolicy` the GET of
the approval policy, `observedProps` the observed custom-property
values, `allTeams` the observed team listing, and `findTeam` the
`findTeamByName` oracle used by the add-teams branch in non-dry mode. -/
def checkRepository (dry : Bool) (config : OrganizationConfig)
    (repo : RepositoryConfig) (meta : RepoMetadata) (octoRepo : ObservedRepo)
    (forkApprovalPolicy : Option String) (observedProps : List PropEntry)
    (allTeams : List ObservedTeam)
    (findTeam : String → List Block × List MainCall × ObservedTeam) :
    Except String (List Block × List MainCall) := do
  let p1 ← checkRepoTeamsSweep dry config.organization repo meta.currentTeams
  let p4 ← checkRepoCollaboratorsSweep dry repo meta.currentCollaborators
  let p10 ← checkRepoRulesetsStep dry repo allTeams meta.currentRulesets
  let p2 := checkRepoAddTeamsSweep dry repo meta.currentTeams findTeam
    (repo.teams.getD [])
  let p3 := checkRepoInvitesSweep dry repo meta.currentInvites
  let p5 := checkRepoSettingsStep dry config repo octoRepo
  let p6 := checkRepoForkApprovalStep dry config repo forkApprovalPolicy
  let p7 := checkRepoVisibilityStep dry repo octoRepo
  let p8 := checkRepoAddCollaboratorsSweep dry repo meta.currentInvites
    meta.currentCollaborators (repo.external_collaborators.getD [])
  let p9 := checkRepoPropertiesStep dry config repo observedProps
  pure (p1.1 ++ p2.1 ++ p3.1 ++ p4.1 ++ p5.1 ++ p6.1 ++ p7.1 ++ p8.1 ++
      p9.1 ++ p10.1,
    p1.2 ++ p2.2 ++ p3.2 ++ p4.2 ++ p5.2 ++ p6.2 ++ p7.2 ++ p8.2 ++
      p9.2 ++ p10.2)

/-! ## Team reconcile (`checkTeam`) -/

/-- Upstream custom property definition as returned by
`getAllCustomProperties`. -/
structure ExistingProperty where
  property_name : String
  value_type : String
  required : Option Bool
  description : Option String
  default_value : Option PropValue
  allowed_values : Option (List String)
  deriving DecidableEq, Repr

/-- Read oracles of one organization run: every platform read the
reconciler performs is a field here, so the reconcile functions stay
pure.  `teamObs` returns `(currentMembers, currentMaintainers)` for a
team slug; `createdTeam` is the team observed after a (non-dry)
creation and cache invalidation. -/
structure OrgEnv where
  allRepos : List ObservedRepo
  allTeams : List ObservedTeam
  orgOwners : List String
  orgMembers : List String
  pendingInvites : List String
  userLookup : String → Option (String × Nat)
  existingProperties : List ExistingProperty
  createdTeam : String → ObservedTeam
  teamObs : String → List String × List String
  repoMeta : String → RepoMetadata
  octoRepoLookup : String → ObservedRepo
  forkApprovalPolicy : String → Option String
  observedProps : String → List PropEntry
  orgDisplayName : String

/-- Embeds `findTeamByName`: more than one match throws; no match emits
the creation block and either pushes the dry-run sentinel (id `-1`) or
issues the create call, after which the recursion finds the new team
(modelled by `createdTeam` and by appending it to the threaded list). -/
def findTeamByName (dry : Bool) (org : String) (createdTeam : String → ObservedTeam)
    (allTeams : List ObservedTeam) (teamName : String) :
    Except String (List Block × List MainCall × ObservedTeam × List ObservedTeam) :=
  let matchingTeams := allTeams.filter (fun team => team.name = teamName)
  if 1 < matchingTeams.length then
    .error ("Found more than one team whose name matches: " ++ teamName)
  else
    match matchingTeams with
    | [t] => .ok ([], [], t, allTeams)
    | _ =>
      let block := Block.context (":tada: Creating team with name `" ++ teamName ++
        "` as it did not exist")
      if dry then
        let sentinel : ObservedTeam := ⟨-1, teamName, "", none, none⟩
        .ok ([block], [], sentinel, allTeams ++ [sentinel])
      else
        let t := createdTeam teamName
        .ok ([block], [.createTeam org teamName], t, allTeams ++ [t])

/-- Decision of the first membership loop of `checkTeam` for one
current maintainer: demote a declared member (unless the org-owner
exception applies), evict when declared in neither set. -/
def maintainerSweepFn (team : TeamConfig) (orgOwners : List String)
    (login : String) : Option (Block × TeamCall) :=
  if login ∉ team.maintainers ∧
      ¬ (login ∈ orgOwners ∧ login ∈ team.members) then
    if login ∈ team.members then
      some (Block.context (":arrow_heading_down: Demoting `" ++ login ++
        "` to member of `" ++ team.name ++ "`"), .setRole login .member)
    else
      some (Block.context (":skull_and_crossbones: Evicting `" ++ login ++
        "` out of `" ++ team.name ++ "`"), .remove login)
  else none

/-- Decision of the second membership loop of `checkTeam` for one
declared maintainer: skip pending invitees, promote a current member,
add an absent user as maintainer. -/
def supposedMaintainerSweepFn (team : TeamConfig) (usersNeedingInvite : List String)
    (currentMaintainers currentMembers : List String) (login : String) :
    Option (Block × TeamCall) :=
  if login ∈ usersNeedingInvite then none
  else if login ∈ currentMaintainers then none
  else if login ∈ currentMembers then
    some (Block.context (":arrow_heading_up: Promoting `" ++ login ++
      "` to maintainer of `" ++ team.name ++ "`"), .setRole login .maintainer)
  else
    some (Block.context (":new: :crown: Adding `" ++ login ++
      "` as a maintainer of `" ++ team.name ++ "`"), .setRole login .maintainer)

/-- Decision of the third membership loop of `checkTeam` for one
current member: evict when declared in neither set; a declared
maintainer was already promoted by the previous loop. -/
def memberSweepFn (team : TeamConfig) (login : String) :
    Option (Block × TeamCall) :=
  if login ∉ team.members then
    if login ∈ team.maintainers then none
    else
      some (Block.context (":skull_and_crossbones: Evicting `" ++ login ++
        "` out of `" ++ team.name ++ "`"), .remove login)
  else none

/-- Decision of the fourth membership loop of `checkTeam` for one
declared member: skip pending invitees, leave an org owner reported as
maintainer alone, leave a demoted maintainer alone, add an absent user
as member. -/
def supposedMemberSweepFn (team : TeamConfig) (orgOwners usersNeedingInvite : List String)
    (currentMaintainers currentMembers : List String) (login : String) :
    Option (Block × TeamCall) :=
  if login ∈ usersNeedingInvite then none
  else if login ∈ currentMembers then none
  else if login ∈ orgOwners ∧ login ∈ currentMaintainers then none
  else if login ∈ currentMaintainers then none
  else
    some (Block.context (":new: Adding `" ++ login ++ "` as a member of `" ++
      team.name ++ "`"), .setRole login .member)

/-- The four membership loops of `checkTeam` in source order, each block
paired with the membership call its site would issue. -/
def checkTeamMembershipPairs (team : TeamConfig) (orgOwners usersNeedingInvite : List String)
    (currentMaintainers currentMembers : List String) : List (Block × TeamCall) :=
  currentMaintainers.filterMap (maintainerSweepFn team orgOwners) ++
  team.maintainers.filterMap
    (supposedMaintainerSweepFn team usersNeedingInvite currentMaintainers currentMembers) ++
  currentMembers.filterMap (memberSweepFn team) ++
  team.members.filterMap
    (supposedMemberSweepFn team orgOwners usersNeedingInvite currentMaintainers currentMembers)

/-- Embeds `checkTeam`: resolve the team, reconcile privacy and parent,
fetch the rosters (empty for the dry-run sentinel), and run the four
membership loops.  The membership calls are gated exactly like every
other mutation site. -/
def checkTeam (dry : Bool) (config : OrganizationConfig) (env : OrgEnv)
    (allTeams : List ObservedTeam) (team : TeamConfig)
    (usersNeedingInvite : List String) :
    Except String (List Block × List MainCall × List ObservedTeam) :=
  match findTeamByName dry config.organization env.createdTeam allTeams team.name with
  | .error e => .error e
  | .ok (b0, c0, octoTeam, allTeams1) =>
    let proposedPrivacy := if team.secret = some true then "secret" else "closed"
    let (b1, c1) :=
      if octoTeam.privacy = some proposedPrivacy then ([], [])
      else
        ([Block.context (":sleuth_or_spy: Updating Team Privacy for `" ++
            octoTeam.name ++ "` from `" ++
            (match octoTeam.privacy with
              | some p => p
              | none => "undefined") ++ "` :arrow_right: `" ++
            proposedPrivacy ++ "`")],
          gated dry [.updateTeamPrivacy config.organization octoTeam.slug
            proposedPrivacy])
    let parentRes : Except String (List Block × List MainCall × List ObservedTeam) :=
      match team.parent with
      | none => .ok ([], [], allTeams1)
      | some parentName =>
        if octoTeam.parent = some parentName then .ok ([], [], allTeams1)
        else
          let pblock := Block.context (":family: Updating Team Parent for `" ++
            octoTeam.name ++ "` from `" ++
            (match octoTeam.parent with
              | some p => p
              | none => "__ROOT__") ++ "` :arrow_right: `" ++ parentName ++ "`")
          if dry then .ok ([pblock], [], allTeams1)
          else
            match findTeamByName dry config.organization env.createdTeam allTeams1
                parentName with
            | .error e => .error e
            | .ok (pb, pc, parentTeam, allTeams2) =>
              .ok ([pblock] ++ pb,
                pc ++ [.updateTeamParent config.organization octoTeam.slug
                  parentTeam.id], allTeams2)
    match parentRes with
    | .error e => .error e
    | .ok (b2, c2, allTeams2) =>
      let rosters :=
        if dry ∧ octoTeam.id = -1 then ([], [])
        else env.teamObs octoTeam.slug
      let currentMembers := rosters.1
      let currentMaintainers := rosters.2
      let pairs := checkTeamMembershipPairs team env.orgOwners usersNeedingInvite
        currentMaintainers currentMembers
      .ok (b0 ++ b1 ++ b2 ++ pairs.map Prod.fst,
        c0 ++ c1 ++ c2 ++
          (if dry then []
           else pairs.map fun p =>
             MainCall.teamMembership config.organization octoTeam.slug p.2),
        allTeams2)

/-- Membership calls of one team extracted from a call list. -/
def extractTeamCalls (org slug : String) (calls : List MainCall) : List TeamCall :=
  calls.filterMap fun c =>
    match c with
    | .teamMembership o s tc => if o = org ∧ s = slug then some tc else none
    | _ => none

/-- Roster of one team on the platform: the two cross-indexed
directories of the membership state machine. -/
structure TeamMemberState where
  maintainers : List String
  members : List String
  deriving DecidableEq, Repr

/-- Platform semantics of one membership call:
`addOrUpdateMembershipForUserInOrg` sets the role (moving the user
between the two directories), `removeMembershipForUserInOrg` removes
the user from the team. -/
def applyTeamCall (s : TeamMemberState) : TeamCall → TeamMemberState
  | .setRole u .maintainer =>
    ⟨u :: s.maintainers.filter (fun x => x ≠ u), s.members.filter (fun x => x ≠ u)⟩
  | .setRole u .member =>
    ⟨s.maintainers.filter (fun x => x ≠ u), u :: s.members.filter (fun x => x ≠ u)⟩
  | .remove u =>
    ⟨s.maintainers.filter (fun x => x ≠ u), s.members.filter (fun x => x ≠ u)⟩

/-- Sequential application of membership calls. -/
def applyTeamCalls (s : TeamMemberState) (calls : List TeamCall) : TeamMemberState :=
  calls.foldl applyTeamCall s

/-- State of a team after the platform applies, in order, every
membership call the team reconcile step issues. -/
def finalTeamState (team : TeamConfig) (orgOwners usersNeedingInvite : List String)
    (currentMaintainers currentMembers : List String) : TeamMemberState :=
  applyTeamCalls ⟨currentMaintainers, currentMembers⟩
    ((checkTeamMembershipPairs team orgOwners usersNeedingInvite currentMaintainers
      currentMembers).map Prod.snd)


/-- Embeds the repository pass of `main` that builds `reposToCheck`: a
declared repository absent upstream is created in real mode (and then
checked, since a fresh repository is not archived), while in a dry run
the `break` statement ends the whole loop; an archived repository is
skipped either way. -/
def repoCreationLoop (dry : Bool) (org : String) (allRepos : List ObservedRepo) :
    List RepositoryConfig → List MainCall × List RepositoryConfig
  | [] => ([], [])
  | repo :: rest =>
    match allRepos.find? (fun r => repo.name = r.name) with
    | none =>
      if dry then ([], [])
      else
        let res := repoCreationLoop dry org allRepos rest
        (MainCall.createRepo org repo.name
          (if repo.visibility = some "current" then none else repo.visibility) ::
            res.1,
          repo :: res.2)
    | some octoRepo =>
      let res := repoCreationLoop dry org allRepos rest
      (res.1, if octoRepo.archived then res.2 else repo :: res.2)


/-- The `usersNeedingInvite` computation of `main`: every login listed in
a team roster (members first, then maintainers) that is not among the
org members and owners. -/
def usersNeedingInviteOf (teams : List TeamConfig) (allUsers : List String) :
    List String :=
  teams.flatMap (fun team =>
    (team.members ++ team.maintainers).filter
      (fun person => (allUsers.find? (fun u => u = person)).isNone))

/-- The invitation-sync loop of `main`: a user already holding a pending
invite is skipped; a user the platform cannot resolve, or whose canonical
login differs from the configured one, appends a critical alert and makes
`main` return (the error branch); otherwise the invite message is
appended and the invitation is issued unless dry. -/
def inviteSyncLoop (dry : Bool) (org : String) (pendingInvites : List String)
    (userLookup : String → Option (String × Nat)) :
    List String → Except (List Block) (List Block × List MainCall)
  | [] => .ok ([], [])
  | u :: rest =>
    if (pendingInvites.find? (fun i => i = u)).isSome then
      inviteSyncLoop dry org pendingInvites userLookup rest
    else
      match userLookup u with
      | none =>
        .error [Block.critical ("User \x22" ++ u ++ "\x22 not in \x22" ++ org ++
          "\x22 organization and could not be found on GitHub")]
      | some (canonicalLogin, userId) =>
        if canonicalLogin ≠ u then
          .error [Block.critical ("User \x22" ++ u ++ "\x22 not in \x22" ++ org ++
            "\x22 organization and does not match name found on GitHub \x22" ++
            canonicalLogin ++ "\x22")]
        else
          let msg := Block.context (":blob-wave: Inviting user `" ++ u ++
            "` to the `" ++ org ++
            "` org as they are listed in a team but not invited yet")
          match inviteSyncLoop dry org pendingInvites userLookup rest with
          | .error bs => .error (msg :: bs)
          | .ok (bs, cs) =>
            .ok (msg :: bs, gated dry [.createInvitation org userId] ++ cs)

/-- The invitation stage of one organization inside `main`. -/
def orgInviteStage (dry : Bool) (config : OrganizationConfig) (env : OrgEnv) :
    Except (List Block) (List Block × List MainCall) :=
  inviteSyncLoop dry config.organization env.pendingInvites env.userLookup
    (usersNeedingInviteOf config.teams (env.orgMembers ++ env.orgOwners))

/-- `main` restricted to the invitation stage of each organization of the
config document, in order.  The `return` statements of the sync sit in
the body of `main` itself, so the error branch ends the whole run: no
later organization is processed. -/
def mainInviteReconcile (dry : Bool) (envOf : String → OrgEnv) :
    List OrganizationConfig → List (String × List Block × List MainCall)
  | [] => []
  | config :: rest =>
    match orgInviteStage dry config (envOf config.organization) with
    | .error bs => [(config.organization, bs, [])]
    | .ok (bs, cs) =>
      (config.organization, bs, cs) :: mainInviteReconcile dry envOf rest


/-- `IS_DRY_RUN` of `helpers.ts`: the run is dry unless the literal
argument is present. -/
def isDryRun (argv : List String) : Bool :=
  !(argv.contains "--do-it-for-real-this-time")

/-- Permission narrowing applied to every Octokit token
(`AuthNarrowing.permissions` in `octokit.ts`). -/
structure AuthNarrowing where
  administration : String
  members : String
  contents : String
  metadata : String
  deriving DecidableEq, Repr

/-- Embeds `getAuthNarrowing`: a dry run or an explicit read-only caller
gets a token narrowed to read on all four scopes, otherwise
administration and members are writable. -/
def getAuthNarrowing (dry : Bool) (forceReadOnly : Bool) : AuthNarrowing :=
  if dry || forceReadOnly then ⟨"read", "read", "read", "read"⟩
  else ⟨"write", "write", "read", "read"⟩

/-- The `propertyPayload` record built for one declared custom property:
`required` defaults to false, a falsy (absent or empty) description is
left out, `default_value` is kept when not undefined, and
`allowed_values` only applies to the select types. -/
def propertyPayloadOf (customProp : CustomProperty) : PropertyPayload :=
  ⟨customProp.property_name, customProp.value_type,
   customProp.required.getD false,
   (match customProp.description with
     | some d => if d = "" then none else some d
     | none => none),
   customProp.default_value,
   (match customProp.allowed_values with
     | some vs =>
       if customProp.value_type = "single_select" ∨
           customProp.value_type = "multi_select" then some vs
       else none
     | none => none)⟩

/-- First loop of the custom-property sync in `main`: create an absent
definition, update an existing one when any compared field differs. -/
def customPropertiesSweep (dry : Bool) (org : String)
    (existingProperties : List ExistingProperty) :
    List CustomProperty → List Block × List MainCall
  | [] => ([], [])
  | p :: rest =>
    let res := customPropertiesSweep dry org existingProperties rest
    match existingProperties.find? (fun e => e.property_name = p.property_name) with
    | none =>
      (Block.context (":label: Creating custom property `" ++ p.property_name ++
          "` with type `" ++ p.value_type ++ "`") :: res.1,
        gated dry [.createOrUpdateCustomProperty org (propertyPayloadOf p)] ++ res.2)
    | some existing =>
      if existing.value_type ≠ p.value_type ∨
          existing.required ≠ some (p.required.getD false) ∨
          existing.description ≠ p.description ∨
          existing.default_value ≠ p.default_value ∨
          existing.allowed_values ≠ p.allowed_values then
        (Block.context (":label: :pencil2: Updating custom property `" ++
            p.property_name ++ "` with type `" ++ p.value_type ++ "`") :: res.1,
          gated dry [.createOrUpdateCustomProperty org (propertyPayloadOf p)] ++ res.2)
      else res

/-- Second loop of the custom-property sync in `main`: delete every
upstream definition not declared in the config. -/
def customPropertiesDeleteSweep (dry : Bool) (org : String)
    (declared : List CustomProperty) :
    List ExistingProperty → List Block × List MainCall
  | [] => ([], [])
  | e :: rest =>
    let res := customPropertiesDeleteSweep dry org declared rest
    if (declared.find? (fun p => p.property_name = e.property_name)).isSome then res
    else
      (Block.context (":label: :github-cross: Deleting custom property `" ++
          e.property_name ++ "` as it is not in config") :: res.1,
        gated dry [.removeCustomProperty org e.property_name] ++ res.2)

/-- The custom-property definition sync of `main`, which runs only when
the config declares a non-empty list of properties. -/
def customPropertiesStep (dry : Bool) (config : OrganizationConfig)
    (existingProperties : List ExistingProperty) : List Block × List MainCall :=
  match config.customProperties with
  | none => ([], [])
  | some props =>
    if props.length = 0 then ([], [])
    else
      let r1 := customPropertiesSweep dry config.organization existingProperties props
      let r2 := customPropertiesDeleteSweep dry config.organization props
        existingProperties
      (r1.1 ++ r2.1, r1.2 ++ r2.2)

/-- The orphan-team pass of `main`: every observed team absent from the
config gets a critical alert and (unless dry) a delete call, followed by
a divider when at least one was found. -/
def missingTeamsDeleteStep (dry : Bool) (org : String) (teams : List TeamConfig)
    (allTeams : List ObservedTeam) : List Block × List MainCall :=
  let missingConfigTeams := allTeams.filter
    (fun t => (teams.find? (fun team => team.name = t.name)).isNone)
  (missingConfigTeams.map
      (fun t => Block.critical ("Deleting Team: `" ++ t.name ++ "`")) ++
    (if missingConfigTeams.length ≠ 0 then [Block.divider] else []),
   gated dry (missingConfigTeams.map (fun t => MainCall.deleteTeam org t.slug)))

/-! ## Theorems -/

theorem charsLe_total : ∀ a b, charsLe a b = true ∨ charsLe b a = true := by
  intro a
  induction a with
  | nil => intro b; left; rfl
  | cons x xs ih =>
    intro b
    cases b with
    | nil => right; rfl
    | cons y ys =>
      simp only [charsLe]
      rcases Nat.lt_trichotomy x.toNat y.toNat with h | h | h
      · left; simp [h]
      · have hxy : ¬ x.toNat < y.toNat := by omega
        have hyx : ¬ y.toNat < x.toNat := by omega
        rcases ih ys with h2 | h2
        · left; simp [hxy, hyx, h2]
        · right; simp [hxy, hyx, h2]
      · right; simp [h, Nat.lt_asymm h]

theorem charsLe_cons_eq (x y : Char) (xs ys : List Char) :
    charsLe (x :: xs) (y :: ys) =
      if x.toNat < y.toNat then true
      else if y.toNat < x.toNat then false
      else charsLe xs ys := rfl

theorem charsLe_trans :
    ∀ a b c, charsLe a b = true → charsLe b c = true → charsLe a c = true := by
  intro a
  induction a with
  | nil => intro b c _ _; rfl
  | cons x xs ih =>
    intro b c hab hbc
    cases b with
    | nil => simp [charsLe] at hab
    | cons y ys =>
      cases c with
      | nil => simp [charsLe] at hbc
      | cons z zs =>
        rw [charsLe_cons_eq] at hab hbc ⊢
        by_cases h1 : x.toNat < y.toNat
        · by_cases h2 : y.toNat < z.toNat
          · have : x.toNat < z.toNat := by omega
            simp [this]
          · by_cases h3 : z.toNat < y.toNat
            · simp [h2, h3] at hbc
            · have : x.toNat < z.toNat := by omega
              simp [this]
        · by_cases h4 : y.toNat < x.toNat
          · simp [h1, h4] at hab
          · simp [h1, h4] at hab
            by_cases h2 : y.toNat < z.toNat
            · have : x.toNat < z.toNat := by omega
              simp [this]
            · by_cases h3 : z.toNat < y.toNat
              · simp [h2, h3] at hbc
              · simp [h2, h3] at hbc
                have e1 : ¬ x.toNat < z.toNat := by omega
                have e2 : ¬ z.toNat < x.toNat := by omega
                simp [e1, e2]
                exact ih ys zs hab hbc

theorem strLe_total (a b : String) : strLe a b = true ∨ strLe b a = true :=
  charsLe_total a.data b.data

theorem strLe_trans {a b c : String} (h1 : strLe a b = true) (h2 : strLe b c = true) :
    strLe a c = true :=
  charsLe_trans a.data b.data c.data h1 h2

/-- C9: `sheriffLevelToGitHubLevel` is the total bijection
read-pull, triage-triage, write-push, maintain-maintain, admin-admin;
`gitHubPermissionsToSheriffLevel` returns the level corresponding to the
highest true flag in the order admin, maintain, push, triage, pull; and
for every bitmap with at least one true flag, encoding the decoded level
gives the platform-native name of that highest true flag. -/
theorem claim_C9 :
    (∀ l₁ l₂ : SheriffAccessLevel,
        sheriffLevelToGitHubLevel l₁ = sheriffLevelToGitHubLevel l₂ → l₁ = l₂) ∧
    (∀ g : GitHubAccessLevel, ∃ l, sheriffLevelToGitHubLevel l = g) ∧
    (sheriffLevelToGitHubLevel .read = .pull ∧
     sheriffLevelToGitHubLevel .triage = .triage ∧
     sheriffLevelToGitHubLevel .write = .push ∧
     sheriffLevelToGitHubLevel .maintain = .maintain ∧
     sheriffLevelToGitHubLevel .admin = .admin) ∧
    (∀ p : GitHubPermissions,
        gitHubPermissionsToSheriffLevel p =
          (highestTrueFlag p).map correspondingSheriffLevel) ∧
    (∀ p : GitHubPermissions,
        (p.admin ∨ p.maintain ∨ p.push ∨ p.triage ∨ p.pull) →
        (gitHubPermissionsToSheriffLevel p).map sheriffLevelToGitHubLevel =
          highestTrueFlag p) := by
  refine ⟨by decide, by decide, by decide, by decide, by decide⟩

/-- Witness for C9 at the bitmap with only `push` and `pull` set. -/
theorem claim_C9_witness :
    (gitHubPermissionsToSheriffLevel ⟨true, false, true, false, false⟩).map
        sheriffLevelToGitHubLevel =
      highestTrueFlag ⟨true, false, true, false, false⟩ :=
  claim_C9.2.2.2.2 ⟨true, false, true, false, false⟩ (Or.inr (Or.inr (Or.inl rfl)))

/-- C10: `gitHubPermissionsToSheriffLevel` reaches its throw exactly for
the bitmaps with no true flag, and returns a level whenever some flag is
true; `sheriffLevelToGitHubLevel` never reaches its trailing throw for
any of the five access-level strings. -/
theorem claim_C10 :
    (∀ p : GitHubPermissions,
        gitHubPermissionsToSheriffLevel p = none ↔
          (p.admin = false ∧ p.maintain = false ∧ p.push = false ∧
           p.triage = false ∧ p.pull = false)) ∧
    (∀ p : GitHubPermissions,
        (p.admin ∨ p.maintain ∨ p.push ∨ p.triage ∨ p.pull) →
        (gitHubPermissionsToSheriffLevel p).isSome = true) ∧
    (∀ l : SheriffAccessLevel,
        (sheriffLevelToGitHubLevelStr (sheriffLevelStr l)).isSome = true) := by
  refine ⟨by decide, by decide, by decide⟩

/-- Witness for C10 at the all-false bitmap and the admin-only bitmap. -/
theorem claim_C10_witness :
    (gitHubPermissionsToSheriffLevel ⟨false, false, false, false, true⟩).isSome = true :=
  claim_C10.2.1 ⟨false, false, false, false, true⟩ (Or.inl rfl)

/-- C8, behaviour of the code at the failing input: a `release.edited`
event by an untrusted sender that matches a trusted-releaser policy
listing `edited`, with no matching release on `mustMatchRepo`.  The
policy loop forces the severity to critical, but the action-to-severity
switch that runs afterwards overwrites it with warning, so the posted
alert has severity warning, not the critical severity the claim states.
The same code also shows the confirmed half of the claim: when the
release exists upstream the hook posts nothing. -/
theorem claim_C8 :
    releaseHook none
        [⟨"app", "bot", "upstream", ["edited"]⟩]
        (fun _ _ => false)
        ⟨some "bot", "edited", "app", "v1.2.3"⟩ = some .warning ∧
    releaseHook none
        [⟨"app", "bot", "upstream", ["edited"]⟩]
        (fun _ _ => true)
        ⟨some "bot", "edited", "app", "v1.2.3"⟩ = none := by
  constructor <;> rfl

/-- C2: full case analysis of the collaborator-change enforcement for
`member.added`, `member.edited` and `member.removed` events, matching
the decision order of `takeActionOnRepositoryCollaborator`: unmatched
org or repo allows with no mutation; an org owner allows with no
mutation; an undefined declared level allows on `removed` and otherwise
reverts via `removeCollaborator`; with a declared level, a missing or
differently-leveled collaborator triggers `addCollaborator` at the
declared level (REVERT on `removed`, ADJUST otherwise); everything else
allows; and the hooks post one critical alert exactly when the outcome
is not ALLOW. -/
theorem claim_C2 :
    (∀ cfgs owners collabs (ev : MemberEvent),
        cfgs.find? (fun c => c.organization = ev.repoOwner) = none →
        takeActionOnRepositoryCollaborator cfgs owners collabs ev =
          .ok ⟨.allowChange, none, []⟩) ∧
    (∀ cfgs owners collabs (ev : MemberEvent) oc,
        cfgs.find? (fun c => c.organization = ev.repoOwner) = some oc →
        oc.repositories.find? (fun r => r.name = ev.repoName) = none →
        takeActionOnRepositoryCollaborator cfgs owners collabs ev =
          .ok ⟨.allowChange, none, []⟩) ∧
    (∀ cfgs owners collabs (ev : MemberEvent) oc rc,
        cfgs.find? (fun c => c.organization = ev.repoOwner) = some oc →
        oc.repositories.find? (fun r => r.name = ev.repoName) = some rc →
        owners.contains ev.memberId = true →
        takeActionOnRepositoryCollaborator cfgs owners collabs ev =
          .ok ⟨.allowChange, some .admin, []⟩) ∧
    (∀ cfgs owners collabs (ev : MemberEvent) oc rc,
        cfgs.find? (fun c => c.organization = ev.repoOwner) = some oc →
        oc.repositories.find? (fun r => r.name = ev.repoName) = some rc →
        owners.contains ev.memberId = false →
        expectedLevelOf rc ev.memberLogin = none →
        ev.action = .removed →
        takeActionOnRepositoryCollaborator cfgs owners collabs ev =
          .ok ⟨.allowChange, none, []⟩) ∧
    (∀ cfgs owners collabs (ev : MemberEvent) oc rc,
        cfgs.find? (fun c => c.organization = ev.repoOwner) = some oc →
        oc.repositories.find? (fun r => r.name = ev.repoName) = some rc →
        owners.contains ev.memberId = false →
        expectedLevelOf rc ev.memberLogin = none →
        ev.action ≠ .removed →
        takeActionOnRepositoryCollaborator cfgs owners collabs ev =
          .ok ⟨.revertChange, none,
            [.removeCollaborator ev.repoOwner ev.repoName ev.memberLogin]⟩) ∧
    (∀ cfgs owners collabs (ev : MemberEvent) oc rc lvl,
        cfgs.find? (fun c => c.organization = ev.repoOwner) = some oc →
        oc.repositories.find? (fun r => r.name = ev.repoName) = some rc →
        owners.contains ev.memberId = false →
        expectedLevelOf rc ev.memberLogin = some lvl →
        collabs.find? (fun c => c.id = ev.memberId) = none →
        takeActionOnRepositoryCollaborator cfgs owners collabs ev =
          .ok ⟨(if ev.action = .removed then .revertChange else .adjustedChange),
            some lvl,
            [.addCollaborator ev.repoOwner ev.repoName ev.memberLogin
              (sheriffLevelToGitHubLevel lvl)]⟩) ∧
    (∀ cfgs owners collabs (ev : MemberEvent) oc rc lvl cc cur,
        cfgs.find? (fun c => c.organization = ev.repoOwner) = some oc →
        oc.repositories.find? (fun r => r.name = ev.repoName) = some rc →
        owners.contains ev.memberId = false →
        expectedLevelOf rc ev.memberLogin = some lvl →
        collabs.find? (fun c => c.id = ev.memberId) = some cc →
        gitHubPermissionsToSheriffLevel cc.permissions = some cur →
        cur ≠ lvl →
        takeActionOnRepositoryCollaborator cfgs owners collabs ev =
          .ok ⟨(if ev.action = .removed then .revertChange else .adjustedChange),
            some lvl,
            [.addCollaborator ev.repoOwner ev.repoName ev.memberLogin
              (sheriffLevelToGitHubLevel lvl)]⟩) ∧
    (∀ cfgs owners collabs (ev : MemberEvent) oc rc lvl cc cur,
        cfgs.find? (fun c => c.organization = ev.repoOwner) = some oc →
        oc.repositories.find? (fun r => r.name = ev.repoName) = some rc →
        owners.contains ev.memberId = false →
        expectedLevelOf rc ev.memberLogin = some lvl →
        collabs.find? (fun c => c.id = ev.memberId) = some cc →
        gitHubPermissionsToSheriffLevel cc.permissions = some cur →
        cur = lvl →
        takeActionOnRepositoryCollaborator cfgs owners collabs ev =
          .ok ⟨.allowChange, some lvl, []⟩) ∧
    (∀ res r, res = .ok r →
        memberHookAlertSeverities res =
          if r.action = .allowChange then [] else [.critical]) := by
  refine ⟨?_, ?_, ?_, ?_, ?_, ?_, ?_, ?_, ?_⟩
  · intro cfgs owners collabs ev h
    simp [takeActionOnRepositoryCollaborator, h]
  · intro cfgs owners collabs ev oc h1 h2
    simp [takeActionOnRepositoryCollaborator, h1, h2]
  · intro cfgs owners collabs ev oc rc h1 h2 h3
    have h3' : ev.memberId ∈ owners := by simpa using h3
    simp [takeActionOnRepositoryCollaborator, h1, h2, h3']
  · intro cfgs owners collabs ev oc rc h1 h2 h3 h4 h5
    have h3' : ev.memberId ∉ owners := by simpa using h3
    simp only [expectedLevelOf] at h4
    simp [takeActionOnRepositoryCollaborator, h1, h2, h3', h4, h5]
  · intro cfgs owners collabs ev oc rc h1 h2 h3 h4 h5
    have h3' : ev.memberId ∉ owners := by simpa using h3
    simp only [expectedLevelOf] at h4
    simp [takeActionOnRepositoryCollaborator, h1, h2, h3', h4, h5]
  · intro cfgs owners collabs ev oc rc lvl h1 h2 h3 h4 h5
    have h3' : ev.memberId ∉ owners := by simpa using h3
    simp only [expectedLevelOf] at h4
    simp [takeActionOnRepositoryCollaborator, h1, h2, h3', h4, h5]
  · intro cfgs owners collabs ev oc rc lvl cc cur h1 h2 h3 h4 h5 h6 h7
    have h3' : ev.memberId ∉ owners := by simpa using h3
    simp only [expectedLevelOf] at h4
    simp [takeActionOnRepositoryCollaborator, h1, h2, h3', h4, h5, h6, h7]
  · intro cfgs owners collabs ev oc rc lvl cc cur h1 h2 h3 h4 h5 h6 h7
    have h3' : ev.memberId ∉ owners := by simpa using h3
    simp only [expectedLevelOf] at h4
    simp [takeActionOnRepositoryCollaborator, h1, h2, h3', h4, h5, h6, h7]
  · intro res r h
    subst h
    rfl

/-- Witness for C2: a concrete event against a one-org, one-repo config
where the collaborator holds write but should hold read, so the outcome
is an adjust with one `addCollaborator` call and one critical alert. -/
theorem claim_C2_witness :
    takeActionOnRepositoryCollaborator
        [⟨"acme", ⟨false, none⟩, [], [⟨"app", none, some [("bob", .read)],
          none, none, none, none⟩], none⟩]
        [7]
        [⟨42, "bob", ⟨true, false, true, false, false⟩⟩]
        ⟨"acme", "app", "bob", 42, .edited⟩ =
      .ok ⟨.adjustedChange, some .read,
        [.addCollaborator "acme" "app" "bob" .pull]⟩ ∧
    memberHookAlertSeverities
        (.ok ⟨.adjustedChange, some .read,
          [.addCollaborator "acme" "app" "bob" .pull]⟩) = [.critical] := by
  constructor
  · have h := claim_C2.2.2.2.2.2.2.1
      [⟨"acme", ⟨false, none⟩, [], [⟨"app", none, some [("bob", .read)],
        none, none, none, none⟩], none⟩]
      [7]
      [⟨42, "bob", ⟨true, false, true, false, false⟩⟩]
      ⟨"acme", "app", "bob", 42, .edited⟩
      ⟨"acme", ⟨false, none⟩, [], [⟨"app", none, some [("bob", .read)],
        none, none, none, none⟩], none⟩
      ⟨"app", none, some [("bob", .read)], none, none, none, none⟩
      .read
      ⟨42, "bob", ⟨true, false, true, false, false⟩⟩
      .write
      (by decide) (by decide) (by decide) (by decide) (by decide) (by decide)
      (by decide)
    simpa using h
  · have h := claim_C2.2.2.2.2.2.2.2.2
      (.ok ⟨.adjustedChange, some .read, [.addCollaborator "acme" "app" "bob" .pull]⟩)
      ⟨.adjustedChange, some .read, [.addCollaborator "acme" "app" "bob" .pull]⟩
      rfl
    simpa using h

theorem mem_gated {dry : Bool} {l : List MainCall} {c : MainCall}
    (h : c ∈ gated dry l) : c ∈ l := by
  unfold gated at h
  split at h
  · simp at h
  · exact h

theorem checkRepoTeamsSweep_no_visibility_call :
    ∀ (l : List ObservedTeamOnRepo) (dry : Bool) (org : String)
      (repo : RepositoryConfig) (out : List Block × List MainCall)
      (r : String) (b : Bool),
      checkRepoTeamsSweep dry org repo l = .ok out →
      MainCall.updateRepoPrivate r b ∉ out.2 := by
  intro l
  induction l with
  | nil =>
    intro dry org repo out r b h
    simp only [checkRepoTeamsSweep] at h
    cases h
    simp
  | cons currentTeam rest ih =>
    intro dry org repo out r b h hc
    simp only [checkRepoTeamsSweep, Bind.bind, Except.bind] at h
    cases hg : recordGet (repo.teams.getD []) currentTeam.name with
    | none =>
      rw [hg] at h
      dsimp only at h
      cases hd : decodePerm currentTeam.permissions with
      | error e => simp [Bind.bind, Except.bind, hd] at h
      | ok lvl =>
        simp only [Bind.bind, Except.bind, hd, pure, Except.pure] at h
        cases h2 : checkRepoTeamsSweep dry org repo rest with
        | error e => rw [h2] at h; simp at h
        | ok p2 =>
          rw [h2] at h
          simp only [Except.ok.injEq] at h
          subst h
          simp only [List.mem_append] at hc
          rcases hc with hm | hm
          · have := mem_gated hm
            simp at this
          · exact ih dry org repo p2 r b h2 hm
    | some supposedLevel =>
      rw [hg] at h
      dsimp only at h
      cases hd : decodePerm currentTeam.permissions with
      | error e => simp [Bind.bind, Except.bind, hd] at h
      | ok currentLevel =>
        simp only [Bind.bind, Except.bind, hd, pure, Except.pure] at h
        by_cases heq : currentLevel = supposedLevel
        · rw [if_pos heq] at h
          cases h2 : checkRepoTeamsSweep dry org repo rest with
          | error e => rw [h2] at h; simp at h
          | ok p2 =>
            rw [h2] at h
            simp only [Except.ok.injEq] at h
            subst h
            simp only [List.mem_append] at hc
            rcases hc with hm | hm
            · simp at hm
            · exact ih dry org repo p2 r b h2 hm
        · simp only [if_neg heq] at h
          cases h2 : checkRepoTeamsSweep dry org repo rest with
          | error e => rw [h2] at h; simp at h
          | ok p2 =>
            rw [h2] at h
            simp only [Except.ok.injEq] at h
            subst h
            simp only [List.mem_append] at hc
            rcases hc with hm | hm
            · have := mem_gated hm
              simp at this
            · exact ih dry org repo p2 r b h2 hm

theorem checkRepoAddTeamsSweep_no_visibility_call :
    ∀ (l : List (String × SheriffAccessLevel)) (dry : Bool)
      (repo : RepositoryConfig) (currentTeams : List ObservedTeamOnRepo)
      (findTeam : String → List Block × List MainCall × ObservedTeam)
      (r : String) (b : Bool),
      (∀ s b2, MainCall.updateRepoPrivate r b2 ∉ (findTeam s).2.1) →
      MainCall.updateRepoPrivate r b ∉
        (checkRepoAddTeamsSweep dry repo currentTeams findTeam l).2 := by
  intro l
  induction l with
  | nil =>
    intro dry repo currentTeams findTeam r b hf
    simp [checkRepoAddTeamsSweep]
  | cons kv rest ih =>
    intro dry repo currentTeams findTeam r b hf hc
    obtain ⟨supposedTeamName, level⟩ := kv
    simp only [checkRepoAddTeamsSweep] at hc
    rw [List.mem_append] at hc
    rcases hc with hm | hm
    · split at hm
      · simp at hm
      · split at hm
        · simp at hm
        · simp only [List.mem_append] at hm
          rcases hm with hm2 | hm2
          · exact hf supposedTeamName b hm2
          · simp at hm2
    · exact ih dry repo currentTeams findTeam r b hf hm

theorem checkRepoInvitesSweep_no_visibility_call :
    ∀ (l : List ObservedInvite) (dry : Bool) (repo : RepositoryConfig)
      (r : String) (b : Bool),
      MainCall.updateRepoPrivate r b ∉ (checkRepoInvitesSweep dry repo l).2 := by
  intro l
  induction l with
  | nil =>
    intro dry repo r b
    simp [checkRepoInvitesSweep]
  | cons currentInvite rest ih =>
    intro dry repo r b hc
    simp only [checkRepoInvitesSweep] at hc
    rw [List.mem_append] at hc
    rcases hc with hm | hm
    · split at hm
      · have := mem_gated hm
        simp at this
      · split at hm
        · simp at hm
        · have := mem_gated hm
          simp at this
    · exact ih dry repo r b hm

theorem checkRepoCollaboratorsSweep_no_visibility_call :
    ∀ (l : List ObservedCollaborator) (dry : Bool) (repo : RepositoryConfig)
      (out : List Block × List MainCall) (r : String) (b : Bool),
      checkRepoCollaboratorsSweep dry repo l = .ok out →
      MainCall.updateRepoPrivate r b ∉ out.2 := by
  intro l
  induction l with
  | nil =>
    intro dry repo out r b h
    simp only [checkRepoCollaboratorsSweep] at h
    cases h
    simp
  | cons currentCollaborator rest ih =>
    intro dry repo out r b h hc
    simp only [checkRepoCollaboratorsSweep, Bind.bind, Except.bind] at h
    cases hg : recordGet (repo.external_collaborators.getD [])
        currentCollaborator.login with
    | none =>
      rw [hg] at h
      dsimp only at h
      cases hd : decodePerm currentCollaborator.permissions with
      | error e => simp [Bind.bind, Except.bind, hd] at h
      | ok lvl =>
        simp only [Bind.bind, Except.bind, hd, pure, Except.pure] at h
        cases h2 : checkRepoCollaboratorsSweep dry repo rest with
        | error e => rw [h2] at h; simp at h
        | ok p2 =>
          rw [h2] at h
          simp only [Except.ok.injEq] at h
          subst h
          simp only [List.mem_append] at hc
          rcases hc with hm | hm
          · have := mem_gated hm
            simp at this
          · exact ih dry repo p2 r b h2 hm
    | some supposedLevel =>
      rw [hg] at h
      dsimp only at h
      cases hd : decodePerm currentCollaborator.permissions with
      | error e => simp [Bind.bind, Except.bind, hd] at h
      | ok currentLevel =>
        simp only [Bind.bind, Except.bind, hd, pure, Except.pure] at h
        by_cases heq : currentLevel = supposedLevel
        · rw [if_pos heq] at h
          cases h2 : checkRepoCollaboratorsSweep dry repo rest with
          | error e => rw [h2] at h; simp at h
          | ok p2 =>
            rw [h2] at h
            simp only [Except.ok.injEq] at h
            subst h
            simp only [List.mem_append] at hc
            rcases hc with hm | hm
            · simp at hm
            · exact ih dry repo p2 r b h2 hm
        · simp only [if_neg heq] at h
          cases h2 : checkRepoCollaboratorsSweep dry repo rest with
          | error e => rw [h2] at h; simp at h
          | ok p2 =>
            rw [h2] at h
            simp only [Except.ok.injEq] at h
            subst h
            simp only [List.mem_append] at hc
            rcases hc with hm | hm
            · have := mem_gated hm
              simp at this
            · exact ih dry repo p2 r b h2 hm

theorem checkRepoSettingsStep_no_visibility_call
    (dry : Bool) (config : OrganizationConfig) (repo : RepositoryConfig)
    (octoRepo : ObservedRepo) (r : String) (b : Bool) :
    MainCall.updateRepoPrivate r b ∉
      (checkRepoSettingsStep dry config repo octoRepo).2 := by
  intro hc
  simp only [checkRepoSettingsStep] at hc
  split at hc
  · simp at hc
  · have := mem_gated hc
    simp at this

theorem checkRepoForkApprovalStep_no_visibility_call
    (dry : Bool) (config : OrganizationConfig) (repo : RepositoryConfig)
    (forkApprovalPolicy : Option String) (r : String) (b : Bool) :
    MainCall.updateRepoPrivate r b ∉
      (checkRepoForkApprovalStep dry config repo forkApprovalPolicy).2 := by
  intro hc
  simp only [checkRepoForkApprovalStep] at hc
  split at hc
  · split at hc
    · simp at hc
    · have := mem_gated hc
      simp at this
  · simp at hc

theorem checkRepoAddCollaboratorsSweep_no_visibility_call :
    ∀ (l : List (String × SheriffAccessLevel)) (dry : Bool)
      (repo : RepositoryConfig) (invites : List ObservedInvite)
      (collabs : List ObservedCollaborator) (r : String) (b : Bool),
      MainCall.updateRepoPrivate r b ∉
        (checkRepoAddCollaboratorsSweep dry repo invites collabs l).2 := by
  intro l
  induction l with
  | nil =>
    intro dry repo invites collabs r b
    simp [checkRepoAddCollaboratorsSweep]
  | cons kv rest ih =>
    intro dry repo invites collabs r b hc
    obtain ⟨name, level⟩ := kv
    simp only [checkRepoAddCollaboratorsSweep] at hc
    rw [List.mem_append] at hc
    rcases hc with hm | hm
    · split at hm
      · simp at hm
      · have := mem_gated hm
        simp at this
    · exact ih dry repo invites collabs r b hm

theorem checkRepoPropertiesStep_no_visibility_call
    (dry : Bool) (config : OrganizationConfig) (repo : RepositoryConfig)
    (observedProps : List PropEntry) (r : String) (b : Bool) :
    MainCall.updateRepoPrivate r b ∉
      (checkRepoPropertiesStep dry config repo observedProps).2 := by
  intro hc
  simp only [checkRepoPropertiesStep] at hc
  split at hc
  · simp at hc
  · split at hc
    · simp at hc
    · have := mem_gated hc
      simp at this

theorem checkRepoRulesetsSweep_no_visibility_call :
    ∀ (l : List ObservedRuleset) (dry : Bool) (repo : RepositoryConfig)
      (allTeams : List ObservedTeam) (expected : List Ruleset)
      (out : List Block × List MainCall) (r : String) (b : Bool),
      checkRepoRulesetsSweep dry repo allTeams expected l = .ok out →
      MainCall.updateRepoPrivate r b ∉ out.2 := by
  intro l
  induction l with
  | nil =>
    intro dry repo allTeams expected out r b h
    simp only [checkRepoRulesetsSweep] at h
    cases h
    simp
  | cons ruleset rest ih =>
    intro dry repo allTeams expected out r b h hc
    simp only [checkRepoRulesetsSweep, Bind.bind, Except.bind] at h
    cases hg : expected.find? (fun rr => rr.name = ruleset.name) with
    | none =>
      rw [hg] at h
      simp only [pure, Except.pure] at h
      cases h2 : checkRepoRulesetsSweep dry repo allTeams expected rest with
      | error e => rw [h2] at h; simp at h
      | ok p2 =>
        rw [h2] at h
        simp only [Except.ok.injEq] at h
        subst h
        simp only [List.mem_append] at hc
        rcases hc with hm | hm
        · have := mem_gated hm
          simp at this
        · exact ih dry repo allTeams expected p2 r b h2 hm
    | some expectedRuleset =>
      rw [hg] at h
      cases hr : rulesetToGithub expectedRuleset allTeams with
      | error e => simp [Bind.bind, Except.bind, hr] at h
      | ok g =>
        simp only [Bind.bind, Except.bind, hr, pure, Except.pure] at h
        by_cases hdiff : getDifferenceWithGithubRuleset g (some ruleset) = true
        · rw [if_pos hdiff] at h
          cases h2 : checkRepoRulesetsSweep dry repo allTeams expected rest with
          | error e => rw [h2] at h; simp at h
          | ok p2 =>
            rw [h2] at h
            simp only [Except.ok.injEq] at h
            subst h
            simp only [List.mem_append] at hc
            rcases hc with hm | hm
            · have := mem_gated hm
              simp at this
            · exact ih dry repo allTeams expected p2 r b h2 hm
        · rw [if_neg hdiff] at h
          cases h2 : checkRepoRulesetsSweep dry repo allTeams expected rest with
          | error e => rw [h2] at h; simp at h
          | ok p2 =>
            rw [h2] at h
            simp only [Except.ok.injEq] at h
            subst h
            simp only [List.mem_append] at hc
            rcases hc with hm | hm
            · simp at hm
            · exact ih dry repo allTeams expected p2 r b h2 hm

theorem checkRepoRulesetsAdd_no_visibility_call :
    ∀ (l : List Ruleset) (dry : Bool) (repo : RepositoryConfig)
      (allTeams : List ObservedTeam) (out : List Block × List MainCall)
      (r : String) (b : Bool),
      checkRepoRulesetsAdd dry repo allTeams l = .ok out →
      MainCall.updateRepoPrivate r b ∉ out.2 := by
  intro l
  induction l with
  | nil =>
    intro dry repo allTeams out r b h
    simp only [checkRepoRulesetsAdd] at h
    cases h
    simp
  | cons ruleset rest ih =>
    intro dry repo allTeams out r b h hc
    simp only [checkRepoRulesetsAdd, Bind.bind, Except.bind] at h
    cases hr : rulesetToGithub ruleset allTeams with
    | error e => rw [hr] at h; simp at h
    | ok g =>
      rw [hr] at h
      cases h2 : checkRepoRulesetsAdd dry repo allTeams rest with
      | error e => rw [h2] at h; simp at h
      | ok p2 =>
        rw [h2] at h
        simp only [pure, Except.pure, Except.ok.injEq] at h
        subst h
        simp only [List.mem_append] at hc
        rcases hc with hm | hm
        · have := mem_gated hm
          simp at this
        · exact ih dry repo allTeams p2 r b h2 hm

theorem checkRepoRulesetsStep_no_visibility_call :
    ∀ (dry : Bool) (repo : RepositoryConfig) (allTeams : List ObservedTeam)
      (currentRulesets : Option (List ObservedRuleset))
      (out : List Block × List MainCall) (r : String) (b : Bool),
      checkRepoRulesetsStep dry repo allTeams currentRulesets = .ok out →
      MainCall.updateRepoPrivate r b ∉ out.2 := by
  intro dry repo allTeams currentRulesets out r b h hc
  unfold checkRepoRulesetsStep at h
  cases hrs : repo.rulesets with
  | none => rw [hrs] at h; cases h; simp at hc
  | some expectedRulesets =>
    rw [hrs] at h
    cases hcr : currentRulesets with
    | none => rw [hcr] at h; cases h; simp at hc
    | some current =>
      rw [hcr] at h
      simp only [Bind.bind, Except.bind] at h
      cases h1 : checkRepoRulesetsSweep dry repo allTeams expectedRulesets current with
      | error e => rw [h1] at h; simp at h
      | ok p1 =>
        rw [h1] at h
        cases h2 : checkRepoRulesetsAdd dry repo allTeams
            (expectedRulesets.filter fun ruleset =>
              !(current.any fun rr => rr.name = ruleset.name)) with
        | error e => rw [h2] at h; simp at h
        | ok p2 =>
          rw [h2] at h
          simp only [pure, Except.pure, Except.ok.injEq] at h
          subst h
          simp only [List.mem_append] at hc
          rcases hc with hm | hm
          · exact checkRepoRulesetsSweep_no_visibility_call current dry repo
              allTeams expectedRulesets p1 r b h1 hm
          · exact checkRepoRulesetsAdd_no_visibility_call _ dry repo allTeams
              p2 r b h2 hm

theorem checkRepository_parts
    (dry : Bool) (config : OrganizationConfig) (repo : RepositoryConfig)
    (meta : RepoMetadata) (octoRepo : ObservedRepo)
    (forkApprovalPolicy : Option String) (observedProps : List PropEntry)
    (allTeams : List ObservedTeam)
    (findTeam : String → List Block × List MainCall × ObservedTeam)
    (out : List Block × List MainCall)
    (h : checkRepository dry config repo meta octoRepo forkApprovalPolicy
      observedProps allTeams findTeam = .ok out) :
    ∃ p1 p4 p10,
      checkRepoTeamsSweep dry config.organization repo meta.currentTeams = .ok p1 ∧
      checkRepoCollaboratorsSweep dry repo meta.currentCollaborators = .ok p4 ∧
      checkRepoRulesetsStep dry repo allTeams meta.currentRulesets = .ok p10 ∧
      out = (p1.1 ++
          (checkRepoAddTeamsSweep dry repo meta.currentTeams findTeam
            (repo.teams.getD [])).1 ++
          (checkRepoInvitesSweep dry repo meta.currentInvites).1 ++ p4.1 ++
          (checkRepoSettingsStep dry config repo octoRepo).1 ++
          (checkRepoForkApprovalStep dry config repo forkApprovalPolicy).1 ++
          (checkRepoVisibilityStep dry repo octoRepo).1 ++
          (checkRepoAddCollaboratorsSweep dry repo meta.currentInvites
            meta.currentCollaborators (repo.external_collaborators.getD [])).1 ++
          (checkRepoPropertiesStep dry config repo observedProps).1 ++ p10.1,
        p1.2 ++
          (checkRepoAddTeamsSweep dry repo meta.currentTeams findTeam
            (repo.teams.getD [])).2 ++
          (checkRepoInvitesSweep dry repo meta.currentInvites).2 ++ p4.2 ++
          (checkRepoSettingsStep dry config repo octoRepo).2 ++
          (checkRepoForkApprovalStep dry config repo forkApprovalPolicy).2 ++
          (checkRepoVisibilityStep dry repo octoRepo).2 ++
          (checkRepoAddCollaboratorsSweep dry repo meta.currentInvites
            meta.currentCollaborators (repo.external_collaborators.getD [])).2 ++
          (checkRepoPropertiesStep dry config repo observedProps).2 ++ p10.2) := by
  simp only [checkRepository, Bind.bind, Except.bind] at h
  cases h1 : checkRepoTeamsSweep dry config.organization repo meta.currentTeams with
  | error e => rw [h1] at h; simp at h
  | ok p1 =>
    rw [h1] at h
    cases h4 : checkRepoCollaboratorsSweep dry repo meta.currentCollaborators with
    | error e => rw [h4] at h; simp at h
    | ok p4 =>
      rw [h4] at h
      cases h10 : checkRepoRulesetsStep dry repo allTeams meta.currentRulesets with
      | error e => rw [h10] at h; simp at h
      | ok p10 =>
        rw [h10] at h
        simp only [pure, Except.pure, Except.ok.injEq] at h
        exact ⟨p1, p4, p10, rfl, rfl, rfl, h.symm⟩

theorem checkRepoVisibilityStep_refuse
    (dry : Bool) (repo : RepositoryConfig) (octoRepo : ObservedRepo)
    (hvis : repo.visibility.getD "public" ≠ "current")
    (hpriv : octoRepo.isPrivate ≠ decide (repo.visibility.getD "public" = "private"))
    (hstars : octoRepo.stargazers_count = none ∨
      (∃ n, octoRepo.stargazers_count = some n ∧ 100 ≤ n)) :
    checkRepoVisibilityStep dry repo octoRepo =
      ([Block.critical (":octagonal_sign: Aborting repository visibility update for `" ++
        octoRepo.name ++ "` to `" ++ repo.visibility.getD "public" ++
        "` as repo has `" ++
        (match octoRepo.stargazers_count with
          | none => "undefined"
          | some n => toString n) ++ "` stargazers")], []) := by
  unfold checkRepoVisibilityStep
  rw [if_neg hvis, if_neg hpriv]
  rcases hstars with hn | ⟨n, hn, hge⟩
  · rw [hn]
  · rw [hn]
    simp only [if_pos hge]

theorem checkRepoVisibilityStep_update
    (dry : Bool) (repo : RepositoryConfig) (octoRepo : ObservedRepo) (n : Nat)
    (hvis : repo.visibility.getD "public" ≠ "current")
    (hpriv : octoRepo.isPrivate ≠ decide (repo.visibility.getD "public" = "private"))
    (hn : octoRepo.stargazers_count = some n) (hlt : n < 100) :
    checkRepoVisibilityStep dry repo octoRepo =
      ([Block.context (":ninja: Updating repository visibility for `" ++
        octoRepo.name ++ "` to `" ++ repo.visibility.getD "public" ++ "`")],
        gated dry [.updateRepoPrivate octoRepo.name
          (decide (repo.visibility.getD "public" = "private"))]) := by
  simp only [checkRepoVisibilityStep]
  rw [if_neg hvis, if_neg hpriv, hn]
  dsimp only
  rw [if_neg (by omega : ¬ n ≥ 100)]

theorem checkRepoVisibilityStep_call_characterize
    (dry : Bool) (repo : RepositoryConfig) (octoRepo : ObservedRepo)
    (r : String) (b : Bool)
    (hc : MainCall.updateRepoPrivate r b ∈ (checkRepoVisibilityStep dry repo octoRepo).2) :
    (∃ n, octoRepo.stargazers_count = some n ∧ n < 100) ∧ dry = false := by
  simp only [checkRepoVisibilityStep] at hc
  by_cases hv : repo.visibility.getD "public" = "current"
  · rw [if_pos hv] at hc
    simp at hc
  · rw [if_neg hv] at hc
    by_cases hp : octoRepo.isPrivate =
        decide (repo.visibility.getD "public" = "private")
    · rw [if_pos hp] at hc
      simp at hc
    · rw [if_neg hp] at hc
      cases hn : octoRepo.stargazers_count with
      | none =>
        rw [hn] at hc
        simp at hc
      | some n =>
        rw [hn] at hc
        dsimp only at hc
        by_cases hge : n ≥ 100
        · rw [if_pos hge] at hc
          simp at hc
        · rw [if_neg hge] at hc
          simp only at hc
          refine ⟨⟨n, rfl, by omega⟩, ?_⟩
          unfold gated at hc
          split at hc
          · simp at hc
          · rename_i hdry
            simpa using hdry

/-- C5: during repository reconcile, when the declared visibility is
not `current` and differs from the observed privacy, the refusal branch
(unknown stargazer count or at least 100 stargazers) posts a critical
alert and issues no visibility mutation at all; any visibility update
call implies the count was known and below 100 and the run was not dry;
and in that case the update at the declared privacy is issued. -/
theorem claim_C5 :
    ∀ (dry : Bool) (config : OrganizationConfig) (repo : RepositoryConfig)
      (meta : RepoMetadata) (octoRepo : ObservedRepo)
      (forkApprovalPolicy : Option String) (observedProps : List PropEntry)
      (allTeams : List ObservedTeam)
      (findTeam : String → List Block × List MainCall × ObservedTeam)
      (blocks : List Block) (calls : List MainCall),
      checkRepository dry config repo meta octoRepo forkApprovalPolicy
        observedProps allTeams findTeam = .ok (blocks, calls) →
      (∀ s b2, MainCall.updateRepoPrivate octoRepo.name b2 ∉ (findTeam s).2.1) →
      repo.visibility.getD "public" ≠ "current" →
      octoRepo.isPrivate ≠ decide (repo.visibility.getD "public" = "private") →
      ((octoRepo.stargazers_count = none ∨
          (∃ n, octoRepo.stargazers_count = some n ∧ 100 ≤ n)) →
        (∃ text, Block.critical text ∈ blocks) ∧
          ∀ b, MainCall.updateRepoPrivate octoRepo.name b ∉ calls) ∧
      (∀ b, MainCall.updateRepoPrivate octoRepo.name b ∈ calls →
        (∃ n, octoRepo.stargazers_count = some n ∧ n < 100) ∧ dry = false) ∧
      (∀ n, octoRepo.stargazers_count = some n → n < 100 → dry = false →
        MainCall.updateRepoPrivate octoRepo.name
          (decide (repo.visibility.getD "public" = "private")) ∈ calls) := by
  intro dry config repo meta octoRepo fork obsProps allTeams findTeam blocks calls
    h hfind hvis hpriv
  obtain ⟨p1, p4, p10, h1, h4, h10, hout⟩ :=
    checkRepository_parts dry config repo meta octoRepo fork obsProps allTeams
      findTeam (blocks, calls) h
  have hout1 : blocks = _ := congrArg Prod.fst hout
  have hout2 : calls = _ := congrArg Prod.snd hout
  simp only at hout1 hout2
  have hnotmem : ∀ b, MainCall.updateRepoPrivate octoRepo.name b ∈ calls →
      MainCall.updateRepoPrivate octoRepo.name b ∈
        (checkRepoVisibilityStep dry repo octoRepo).2 := by
    intro b hb
    rw [hout2] at hb
    simp only [List.mem_append] at hb
    rcases hb with ((((((((hb | hb) | hb) | hb) | hb) | hb) | hb) | hb) | hb) | hb
    · exact absurd hb (checkRepoTeamsSweep_no_visibility_call _ _ _ _ _ _ _ h1)
    · exact absurd hb (checkRepoAddTeamsSweep_no_visibility_call _ _ _ _ _ _ _ hfind)
    · exact absurd hb (checkRepoInvitesSweep_no_visibility_call _ _ _ _ _)
    · exact absurd hb (checkRepoCollaboratorsSweep_no_visibility_call _ _ _ _ _ _ h4)
    · exact absurd hb (checkRepoSettingsStep_no_visibility_call _ _ _ _ _ _)
    · exact absurd hb (checkRepoForkApprovalStep_no_visibility_call _ _ _ _ _ _)
    · exact hb
    · exact absurd hb (checkRepoAddCollaboratorsSweep_no_visibility_call _ _ _ _ _ _ _)
    · exact absurd hb (checkRepoPropertiesStep_no_visibility_call _ _ _ _ _ _)
    · exact absurd hb (checkRepoRulesetsStep_no_visibility_call _ _ _ _ _ _ _ h10)
  refine ⟨?_, ?_, ?_⟩
  · intro hstars
    have hrefuse := checkRepoVisibilityStep_refuse dry repo octoRepo hvis hpriv hstars
    constructor
    · refine ⟨(":octagonal_sign: Aborting repository visibility update for `" ++
        octoRepo.name ++ "` to `" ++ repo.visibility.getD "public" ++
        "` as repo has `" ++
        (match octoRepo.stargazers_count with
          | none => "undefined"
          | some n => toString n) ++ "` stargazers"), ?_⟩
      rw [hout1]
      simp only [List.mem_append]
      refine Or.inl (Or.inl (Or.inl (Or.inr ?_)))
      rw [hrefuse]
      exact List.mem_singleton.mpr rfl
    · intro b hb
      have := hnotmem b hb
      rw [hrefuse] at this
      simp at this
  · intro b hb
    exact checkRepoVisibilityStep_call_characterize dry repo octoRepo _ _ (hnotmem b hb)
  · intro n hn hlt hdry
    have hupd := checkRepoVisibilityStep_update dry repo octoRepo n hvis hpriv hn hlt
    rw [hout2]
    simp only [List.mem_append]
    refine Or.inl (Or.inl (Or.inl (Or.inr ?_)))
    rw [hupd]
    subst hdry
    simp [gated]

/-- Witness for C5: a repo declared private, observed public with 1732
stargazers; the reconcile posts the critical abort alert and makes no
mutation. -/
theorem claim_C5_witness :
    (∃ text, Block.critical text ∈
      [Block.critical (":octagonal_sign: Aborting repository visibility update for `app` to `private` as repo has `1732` stargazers")]) ∧
      ∀ b, MainCall.updateRepoPrivate "app" b ∉ ([] : List MainCall) :=
  (claim_C5 false ⟨"acme", ⟨false, none⟩, [], [], none⟩
    ⟨"app", none, none, none, some "private", none, none⟩
    ⟨[], [], [], none⟩
    ⟨"app", false, false, false, some 1732⟩
    none [] []
    (fun _ => ([], [], ⟨-1, "", "", none, none⟩))
    [Block.critical (":octagonal_sign: Aborting repository visibility update for `app` to `private` as repo has `1732` stargazers")]
    []
    (by decide)
    (by intro s b2; simp)
    (by decide)
    (by decide)).1 (Or.inr ⟨1732, rfl, by omega⟩)

theorem applyTeamCall_membership_other (s : TeamMemberState) (c : TeamCall)
    (u : String) (h : c.user ≠ u) :
    (u ∈ (applyTeamCall s c).maintainers ↔ u ∈ s.maintainers) ∧
    (u ∈ (applyTeamCall s c).members ↔ u ∈ s.members) := by
  cases c with
  | setRole v role =>
    have hv : v ≠ u := h
    have hv2 : u ≠ v := Ne.symm hv
    cases role <;> simp [applyTeamCall, List.mem_filter, hv, hv2]
  | remove v =>
    have hv : v ≠ u := h
    have hv2 : u ≠ v := Ne.symm hv
    simp [applyTeamCall, List.mem_filter, hv, hv2]

theorem applyTeamCalls_membership (u : String) :
    ∀ (calls : List TeamCall) (s : TeamMemberState),
      (match (calls.filter (fun c => c.user = u)).getLast? with
       | none =>
         (u ∈ (applyTeamCalls s calls).maintainers ↔ u ∈ s.maintainers) ∧
         (u ∈ (applyTeamCalls s calls).members ↔ u ∈ s.members)
       | some (.setRole _ .maintainer) =>
         u ∈ (applyTeamCalls s calls).maintainers ∧
         u ∉ (applyTeamCalls s calls).members
       | some (.setRole _ .member) =>
         u ∉ (applyTeamCalls s calls).maintainers ∧
         u ∈ (applyTeamCalls s calls).members
       | some (.remove _) =>
         u ∉ (applyTeamCalls s calls).maintainers ∧
         u ∉ (applyTeamCalls s calls).members) := by
  intro calls
  induction calls with
  | nil =>
    intro s
    simp [applyTeamCalls]
  | cons c rest ih =>
    intro s
    have hfold : applyTeamCalls s (c :: rest) =
        applyTeamCalls (applyTeamCall s c) rest := rfl
    by_cases hu : c.user = u
    · have hfilter : (c :: rest).filter (fun c2 => c2.user = u) =
          c :: rest.filter (fun c2 => c2.user = u) := by
        simp [List.filter_cons, hu]
      rw [hfilter, hfold, List.getLast?_cons]
      have hih := ih (applyTeamCall s c)
      cases hlast : (rest.filter (fun c2 => c2.user = u)).getLast? with
      | none =>
        simp only [Option.getD_none]
        simp only [hlast] at hih
        cases c with
        | setRole v role =>
          have hv : v = u := hu
          subst hv
          cases role
          · refine ⟨?_, ?_⟩
            · rw [hih.1]
              simp [applyTeamCall, List.mem_filter]
            · rw [hih.2]
              simp [applyTeamCall]
          · refine ⟨?_, ?_⟩
            · rw [hih.1]
              simp [applyTeamCall]
            · rw [hih.2]
              simp [applyTeamCall, List.mem_filter]
        | remove v =>
          have hv : v = u := hu
          subst hv
          refine ⟨?_, ?_⟩
          · rw [hih.1]
            simp [applyTeamCall, List.mem_filter]
          · rw [hih.2]
            simp [applyTeamCall, List.mem_filter]
      | some c2 =>
        simp only [Option.getD_some]
        simp only [hlast] at hih
        cases c2 with
        | setRole v role => cases role <;> exact hih
        | remove v => exact hih
    · have hfilter : (c :: rest).filter (fun c2 => c2.user = u) =
          rest.filter (fun c2 => c2.user = u) := by
        simp [List.filter_cons, hu]
      rw [hfilter, hfold]
      have hih := ih (applyTeamCall s c)
      have hpres := applyTeamCall_membership_other s c u hu
      cases hlast : (rest.filter (fun c2 => c2.user = u)).getLast? with
      | none =>
        simp only [hlast] at hih ⊢
        exact ⟨hih.1.trans hpres.1, hih.2.trans hpres.2⟩
      | some c2 =>
        simp only [hlast] at hih ⊢
        cases c2 with
        | setRole v role => cases role <;> exact hih
        | remove v => exact hih

theorem sweep_user_calls (u : String) :
    ∀ (l : List String) (f : String → Option (Block × TeamCall)),
      (∀ x p, f x = some p → p.2.user = x) → l.Nodup →
      ((l.filterMap f).map Prod.snd).filter (fun c => c.user = u) =
        if u ∈ l then ((f u).map Prod.snd).toList else [] := by
  intro l
  induction l with
  | nil =>
    intro f hf hnd
    simp
  | cons x xs ih =>
    intro f hf hnd
    have hnd2 : xs.Nodup := hnd.of_cons
    have hxnotin : x ∉ xs := (List.nodup_cons.mp hnd).1
    have hrec := ih f hf hnd2
    by_cases hxu : x = u
    · subst hxu
      rw [if_pos (List.mem_cons_self _ _)]
      rw [if_neg hxnotin] at hrec
      cases hx : f x with
      | none =>
        rw [List.filterMap_cons_none hx, hrec]
        simp [hx]
      | some p =>
        have hpx : p.2.user = x := hf x p hx
        rw [List.filterMap_cons_some hx]
        simp only [List.map_cons, List.filter_cons]
        rw [hrec]
        simp [hx, hpx]
    · have hmemiff : u ∈ x :: xs ↔ u ∈ xs := by
        simp [List.mem_cons, Ne.symm hxu]
      have hifeq : (if u ∈ x :: xs then ((f u).map Prod.snd).toList else []) =
          (if u ∈ xs then ((f u).map Prod.snd).toList else []) := by
        by_cases hm : u ∈ xs
        · rw [if_pos hm, if_pos (hmemiff.mpr hm)]
        · rw [if_neg hm, if_neg (fun hc => hm (hmemiff.mp hc))]
      rw [hifeq]
      cases hx : f x with
      | none =>
        rw [List.filterMap_cons_none hx, hrec]
      | some p =>
        have hpx : p.2.user = x := hf x p hx
        have hpu : ¬ p.2.user = u := by rw [hpx]; exact hxu
        rw [List.filterMap_cons_some hx]
        simp only [List.map_cons, List.filter_cons]
        rw [hrec]
        simp [hpu]

theorem maintainerSweepFn_user (team : TeamConfig) (owners : List String)
    (x : String) (p : Block × TeamCall)
    (h : maintainerSweepFn team owners x = some p) : p.2.user = x := by
  unfold maintainerSweepFn at h
  split at h
  · split at h <;> (cases h; rfl)
  · exact absurd h (by simp)

theorem supposedMaintainerSweepFn_user (team : TeamConfig)
    (invites curMaint curMemb : List String) (x : String) (p : Block × TeamCall)
    (h : supposedMaintainerSweepFn team invites curMaint curMemb x = some p) :
    p.2.user = x := by
  unfold supposedMaintainerSweepFn at h
  split at h
  · exact absurd h (by simp)
  · split at h
    · exact absurd h (by simp)
    · split at h <;> (cases h; rfl)

theorem memberSweepFn_user (team : TeamConfig) (x : String) (p : Block × TeamCall)
    (h : memberSweepFn team x = some p) : p.2.user = x := by
  unfold memberSweepFn at h
  split at h
  · split at h
    · exact absurd h (by simp)
    · cases h; rfl
  · exact absurd h (by simp)

theorem supposedMemberSweepFn_user (team : TeamConfig)
    (owners invites curMaint curMemb : List String) (x : String)
    (p : Block × TeamCall)
    (h : supposedMemberSweepFn team owners invites curMaint curMemb x = some p) :
    p.2.user = x := by
  unfold supposedMemberSweepFn at h
  split at h
  · exact absurd h (by simp)
  · split at h
    · exact absurd h (by simp)
    · split at h
      · exact absurd h (by simp)
      · split at h
        · exact absurd h (by simp)
        · cases h; rfl

theorem charsLe_antisymm :
    ∀ a b, charsLe a b = true → charsLe b a = true → a = b := by
  intro a
  induction a with
  | nil =>
    intro b _ hba
    cases b with
    | nil => rfl
    | cons y ys => simp [charsLe] at hba
  | cons x xs ih =>
    intro b hab hba
    cases b with
    | nil => simp [charsLe] at hab
    | cons y ys =>
      rw [charsLe_cons_eq] at hab hba
      by_cases h1 : x.toNat < y.toNat
      · have : ¬ y.toNat < x.toNat := by omega
        simp [this, h1] at hba
      · by_cases h2 : y.toNat < x.toNat
        · simp [h1, h2] at hab
        · simp [h1, h2] at hab hba
          have hn : x.toNat = y.toNat := by omega
          have hxy : x = y := Char.ext (UInt32.ext hn)
          rw [hxy, ih ys hab hba]

theorem strLe_antisymm {a b : String} (h1 : strLe a b = true) (h2 : strLe b a = true) :
    a = b := by
  have := charsLe_antisymm a.data b.data h1 h2
  cases a; cases b; simp_all

theorem ruleEntryLe_total : ∀ a b, ruleEntryLe a b ∨ ruleEntryLe b a := by
  intro a b
  exact strLe_total a.type b.type

theorem ruleEntryLe_trans :
    ∀ a b c, ruleEntryLe a b → ruleEntryLe b c → ruleEntryLe a c := by
  intro a b c h1 h2
  exact strLe_trans h1 h2

theorem bypassActorLe_total : ∀ a b, bypassActorLe a b ∨ bypassActorLe b a := by
  intro a b
  by_cases ht : a.actor_type = b.actor_type
  · rcases Int.le_total a.actor_id b.actor_id with h | h
    · left; exact Or.inl ⟨ht, h⟩
    · right; exact Or.inl ⟨ht.symm, h⟩
  · rcases strLe_total a.actor_type b.actor_type with h | h
    · left; exact Or.inr ⟨ht, h⟩
    · right; exact Or.inr ⟨fun hh => ht hh.symm, h⟩

theorem bypassActorLe_trans :
    ∀ a b c, bypassActorLe a b → bypassActorLe b c → bypassActorLe a c := by
  intro a b c h1 h2
  rcases h1 with ⟨e1, i1⟩ | ⟨n1, s1⟩
  · rcases h2 with ⟨e2, i2⟩ | ⟨n2, s2⟩
    · exact Or.inl ⟨e1.trans e2, le_trans i1 i2⟩
    · exact Or.inr ⟨e1 ▸ n2, e1 ▸ s2⟩
  · rcases h2 with ⟨e2, i2⟩ | ⟨n2, s2⟩
    · exact Or.inr ⟨e2 ▸ n1, e2 ▸ s1⟩
    · refine Or.inr ⟨?_, strLe_trans s1 s2⟩
      intro hac
      exact n1 (strLe_antisymm s1 (hac ▸ s2))

theorem resolveTeamBypassActor_mode (allTeams : List ObservedTeam) (name : String)
    (a : BypassActor) (h : resolveTeamBypassActor allTeams name = .ok a) :
    a.bypass_mode = "always" := by
  unfold resolveTeamBypassActor at h
  cases hf : allTeams.find? (fun t => t.name = name) with
  | none => rw [hf] at h; exact absurd h (by simp)
  | some t => rw [hf] at h; cases h; rfl

theorem mapM_resolveTeam_always :
    ∀ (l : List String) (ts : List ObservedTeam) (res : List BypassActor),
      l.mapM (resolveTeamBypassActor ts) = .ok res →
      ∀ a ∈ res, a.bypass_mode = "always" := by
  intro l
  induction l with
  | nil =>
    intro ts res h a ha
    rw [List.mapM_nil] at h
    simp only [pure, Except.pure, Except.ok.injEq] at h
    subst h
    simp at ha
  | cons x xs ih =>
    intro ts res h a ha
    rw [List.mapM_cons] at h
    cases hx : resolveTeamBypassActor ts x with
    | error e => rw [hx] at h; simp [Bind.bind, Except.bind] at h
    | ok y =>
      rw [hx] at h
      cases hxs : xs.mapM (resolveTeamBypassActor ts) with
      | error e => rw [hxs] at h; simp [Bind.bind, Except.bind] at h
      | ok ys =>
        rw [hxs] at h
        simp only [Bind.bind, Except.bind, pure, Except.pure, Except.ok.injEq] at h
        subst h
        rcases List.mem_cons.mp ha with rfl | hmem
        · exact resolveTeamBypassActor_mode ts x a hx
        · exact ih ts ys hxs a hmem

/-- C4: for every declared ruleset that normalizes successfully, the
produced rules are a permutation of the typed entries for the declared
tokens plus the `pull_request` and `required_status_checks` entries and
are sorted by type; a declared `require_pull_request` yields a
`pull_request` entry carrying the exact default backfills; the bypass
actors are the apps (as `Integration`) concatenated with the resolved
teams (as `Team`), sorted by actor type then actor id, each with bypass
mode `always`; `conditions.ref_name.exclude` defaults to the empty list
and `enforcement` defaults to `active`. -/
theorem claim_C4 :
    ∀ (rs : Ruleset) (teams : List ObservedTeam) (g : GithubRuleset),
      rulesetToGithub rs teams = .ok g →
      (g.rules.Perm ((rs.rules.getD []).map basicRuleEntry ++
          prGeneratedRules rs ++ statusChecksGeneratedRules rs) ∧
        List.Sorted ruleEntryLe g.rules) ∧
      (∀ pr, rs.require_pull_request = some pr →
        RuleEntry.pull_request ⟨pr.dismiss_stale_reviews_on_push.getD false,
          pr.require_code_owner_review.getD false,
          pr.require_last_push_approval.getD false,
          pr.required_approving_review_count.getD 0,
          pr.required_review_thread_resolution.getD false,
          pr.allowed_merge_methods.getD ["squash"], none⟩ ∈ g.rules) ∧
      (rs.bypass = none → g.bypass_actors = []) ∧
      (∀ bp teamActors, rs.bypass = some bp →
        (bp.teams.getD []).mapM (resolveTeamBypassActor teams) = .ok teamActors →
        (g.bypass_actors.Perm
            (((bp.apps.getD []).map fun appId =>
              BypassActor.mk (Int.ofNat appId) "Integration" "always") ++ teamActors) ∧
          List.Sorted bypassActorLe g.bypass_actors ∧
          ∀ a ∈ g.bypass_actors, a.bypass_mode = "always")) ∧
      g.conditions = ⟨rs.ref_name.include, rs.ref_name.exclude.getD []⟩ ∧
      g.enforcement = rs.enforcement.getD "active" := by
  haveI : IsTotal RuleEntry ruleEntryLe := ⟨ruleEntryLe_total⟩
  haveI : IsTrans RuleEntry ruleEntryLe := ⟨ruleEntryLe_trans⟩
  haveI : IsTotal BypassActor bypassActorLe := ⟨bypassActorLe_total⟩
  haveI : IsTrans BypassActor bypassActorLe := ⟨bypassActorLe_trans⟩
  intro rs teams g h
  have hprm : ∀ pr, rs.require_pull_request = some pr →
      RuleEntry.pull_request ⟨pr.dismiss_stale_reviews_on_push.getD false,
        pr.require_code_owner_review.getD false,
        pr.require_last_push_approval.getD false,
        pr.required_approving_review_count.getD 0,
        pr.required_review_thread_resolution.getD false,
        pr.allowed_merge_methods.getD ["squash"], none⟩ ∈
        List.insertionSort ruleEntryLe
          ((rs.rules.getD []).map basicRuleEntry ++ prGeneratedRules rs ++
            statusChecksGeneratedRules rs) := by
    intro pr hpr
    have hperm := List.perm_insertionSort ruleEntryLe
      ((rs.rules.getD []).map basicRuleEntry ++ prGeneratedRules rs ++
        statusChecksGeneratedRules rs)
    rw [hperm.mem_iff]
    have hin : RuleEntry.pull_request ⟨pr.dismiss_stale_reviews_on_push.getD false,
        pr.require_code_owner_review.getD false,
        pr.require_last_push_approval.getD false,
        pr.required_approving_review_count.getD 0,
        pr.required_review_thread_resolution.getD false,
        pr.allowed_merge_methods.getD ["squash"], none⟩ ∈ prGeneratedRules rs := by
      simp [prGeneratedRules, hpr]
    simp only [List.mem_append]
    exact Or.inl (Or.inr hin)
  cases hb : rs.bypass with
  | none =>
    simp only [rulesetToGithub, hb, Except.ok.injEq] at h
    subst h
    refine ⟨⟨?_, ?_⟩, ?_, ?_, ?_, rfl, rfl⟩
    · exact List.perm_insertionSort _ _
    · exact List.sorted_insertionSort _ _
    · intro pr hpr
      exact hprm pr hpr
    · intro _; rfl
    · intro bp teamActors hb2 _
      exact absurd hb2 (by simp)
  | some bp =>
    cases hm0 : (bp.teams.getD []).mapM (resolveTeamBypassActor teams) with
    | error e =>
      simp only [rulesetToGithub, hb, hm0] at h
      exact absurd h (by simp)
    | ok ts0 =>
      simp only [rulesetToGithub, hb, hm0, Except.ok.injEq] at h
      subst h
      refine ⟨⟨?_, ?_⟩, ?_, ?_, ?_, rfl, rfl⟩
      · exact List.perm_insertionSort _ _
      · exact List.sorted_insertionSort _ _
      · intro pr hpr
        exact hprm pr hpr
      · intro hb2
        exact absurd hb2 (by simp)
      · intro bp2 teamActors hb2 hm2
        injection hb2 with hbp
        subst hbp
        rw [hm0] at hm2
        injection hm2 with hts
        subst hts
        refine ⟨?_, ?_, ?_⟩
        · exact List.perm_insertionSort _ _
        · exact List.sorted_insertionSort _ _
        · intro a ha
          simp only [rulesetToGithubWith] at ha
          have hperm := List.perm_insertionSort bypassActorLe
            (((bp.apps.getD []).map fun appId =>
              BypassActor.mk (Int.ofNat appId) "Integration" "always") ++ ts0)
          rw [hperm.mem_iff] at ha
          rcases List.mem_append.mp ha with hmem | hmem
          · rcases List.mem_map.mp hmem with ⟨_, _, rfl⟩
            rfl
          · exact mapM_resolveTeam_always _ teams ts0 hm0 a hmem

/-- Witness for C4 at a concrete ruleset declaring two rule tokens, a
pull-request requirement with no overrides, one app and one team bypass
actor. -/
theorem claim_C4_witness :
    rulesetToGithub
        ⟨"main-prot", "branch", none, some ⟨some ["core"], some [12]⟩,
          ⟨["refs/heads/main"], none⟩,
          some [.require_signed_commits, .restrict_force_push],
          some ⟨none, none, none, none, none, none⟩, none⟩
        [⟨77, "core", "core", none, none⟩] =
      .ok ⟨"main-prot", "branch", "active",
        [⟨12, "Integration", "always"⟩, ⟨77, "Team", "always"⟩],
        ⟨["refs/heads/main"], []⟩,
        [.basic "non_fast_forward",
         .pull_request ⟨false, false, false, 0, false, ["squash"], none⟩,
         .basic "required_signatures"]⟩ ∧
    ([RuleEntry.basic "non_fast_forward",
      RuleEntry.pull_request ⟨false, false, false, 0, false, ["squash"], none⟩,
      RuleEntry.basic "required_signatures"] : List RuleEntry).Perm
      (([BasicRule.require_signed_commits, BasicRule.restrict_force_push].map
          basicRuleEntry) ++
        prGeneratedRules
          ⟨"main-prot", "branch", none, some ⟨some ["core"], some [12]⟩,
            ⟨["refs/heads/main"], none⟩,
            some [.require_signed_commits, .restrict_force_push],
            some ⟨none, none, none, none, none, none⟩, none⟩ ++
        statusChecksGeneratedRules
          ⟨"main-prot", "branch", none, some ⟨some ["core"], some [12]⟩,
            ⟨["refs/heads/main"], none⟩,
            some [.require_signed_commits, .restrict_force_push],
            some ⟨none, none, none, none, none, none⟩, none⟩) := by
  constructor
  · decide
  · have h := (claim_C4
      ⟨"main-prot", "branch", none, some ⟨some ["core"], some [12]⟩,
        ⟨["refs/heads/main"], none⟩,
        some [.require_signed_commits, .restrict_force_push],
        some ⟨none, none, none, none, none, none⟩, none⟩
      [⟨77, "core", "core", none, none⟩]
      ⟨"main-prot", "branch", "active",
        [⟨12, "Integration", "always"⟩, ⟨77, "Team", "always"⟩],
        ⟨["refs/heads/main"], []⟩,
        [.basic "non_fast_forward",
         .pull_request ⟨false, false, false, 0, false, ["squash"], none⟩,
         .basic "required_signatures"]⟩
      (by decide)).1.1
    simpa using h

/-- C3, counterexample to the literal claim: `alice` is an org owner, a
current maintainer of the team, and declared only in `members`; the claim
says that after reconcile she is a member and not a maintainer, but the
org-owner exception in the first membership loop leaves her a maintainer. -/
theorem claim_C3_counterexample :
    "alice" ∈ (finalTeamState ⟨"team", ["alice"], ["bob"], none, none⟩
        ["alice"] [] ["alice"] []).maintainers ∧
    "alice" ∉ (finalTeamState ⟨"team", ["alice"], ["bob"], none, none⟩
        ["alice"] [] ["alice"] []).members ∧
    "alice" ∉ (⟨"team", ["alice"], ["bob"], none, none⟩ : TeamConfig).maintainers ∧
    "alice" ∈ (⟨"team", ["alice"], ["bob"], none, none⟩ : TeamConfig).members := by
  refine ⟨?_, ?_, ?_, ?_⟩ <;> decide

/-- C3 (amended): after the team reconcile step — assuming the declared
member and maintainer lists are disjoint and duplicate-free, the observed
rosters are disjoint and duplicate-free, and no declared user holds a
pending org invitation — a user ends up a maintainer iff they are a
declared maintainer, or an org owner declared as member who was already
observed as maintainer; and they end up a member iff they are a declared
member and not such an owner kept as maintainer. -/
theorem claim_C3 (team : TeamConfig) (owners invites curMaint curMemb : List String)
    (u : String)
    (hdm : ∀ x, x ∈ team.members → x ∉ team.maintainers)
    (hdc : ∀ x, x ∈ curMemb → x ∉ curMaint)
    (hinv : ∀ x, x ∈ team.members ∨ x ∈ team.maintainers → x ∉ invites)
    (hndM : team.maintainers.Nodup) (hndm : team.members.Nodup)
    (hndcM : curMaint.Nodup) (hndcm : curMemb.Nodup) :
    (u ∈ (finalTeamState team owners invites curMaint curMemb).maintainers ↔
      u ∈ team.maintainers ∨ (u ∈ owners ∧ u ∈ team.members ∧ u ∈ curMaint)) ∧
    (u ∈ (finalTeamState team owners invites curMaint curMemb).members ↔
      u ∈ team.members ∧ ¬ (u ∈ owners ∧ u ∈ curMaint)) := by
  have hA := sweep_user_calls u curMaint (maintainerSweepFn team owners)
    (maintainerSweepFn_user team owners) hndcM
  have hB := sweep_user_calls u team.maintainers
    (supposedMaintainerSweepFn team invites curMaint curMemb)
    (supposedMaintainerSweepFn_user team invites curMaint curMemb) hndM
  have hC := sweep_user_calls u curMemb (memberSweepFn team)
    (memberSweepFn_user team) hndcm
  have hD := sweep_user_calls u team.members
    (supposedMemberSweepFn team owners invites curMaint curMemb)
    (supposedMemberSweepFn_user team owners invites curMaint curMemb) hndm
  have hfilter : (((checkTeamMembershipPairs team owners invites curMaint
        curMemb).map Prod.snd).filter (fun c => c.user = u)) =
      (((if u ∈ curMaint then
            ((maintainerSweepFn team owners u).map Prod.snd).toList else []) ++
        (if u ∈ team.maintainers then
            ((supposedMaintainerSweepFn team invites curMaint curMemb u).map
              Prod.snd).toList else [])) ++
        (if u ∈ curMemb then
            ((memberSweepFn team u).map Prod.snd).toList else [])) ++
        (if u ∈ team.members then
            ((supposedMemberSweepFn team owners invites curMaint curMemb u).map
              Prod.snd).toList else []) := by
    unfold checkTeamMembershipPairs
    simp only [List.map_append, List.filter_append]
    rw [hA, hB, hC, hD]
  have key := applyTeamCalls_membership u
    ((checkTeamMembershipPairs team owners invites curMaint curMemb).map Prod.snd)
    ⟨curMaint, curMemb⟩
  by_cases hM : u ∈ team.maintainers
  · have hm : u ∉ team.members := fun hx => hdm u hx hM
    have hninv : u ∉ invites := hinv u (Or.inr hM)
    by_cases hcM : u ∈ curMaint
    · have hcm : u ∉ curMemb := fun hx => hdc u hx hcM
      have hscrut : (((checkTeamMembershipPairs team owners invites curMaint
            curMemb).map Prod.snd).filter (fun c => c.user = u)) =
          ([] : List TeamCall) := by
        rw [hfilter]
        simp [maintainerSweepFn, supposedMaintainerSweepFn, hM, hm, hcM, hcm, hninv]
      rw [hscrut] at key
      have key2 : (u ∈ (finalTeamState team owners invites curMaint
            curMemb).maintainers ↔ u ∈ curMaint) ∧
          (u ∈ (finalTeamState team owners invites curMaint curMemb).members ↔
            u ∈ curMemb) := key
      constructor
      · exact ⟨fun _ => Or.inl hM, fun _ => key2.1.mpr hcM⟩
      · exact ⟨fun h => absurd (key2.2.mp h) hcm, fun h => absurd h.1 hm⟩
    · by_cases hcm : u ∈ curMemb
      · have hscrut : (((checkTeamMembershipPairs team owners invites curMaint
              curMemb).map Prod.snd).filter (fun c => c.user = u)) =
            [TeamCall.setRole u TeamRole.maintainer] := by
          rw [hfilter]
          simp [supposedMaintainerSweepFn, memberSweepFn, hM, hm, hcM, hcm, hninv]
        rw [hscrut] at key
        have key2 : u ∈ (finalTeamState team owners invites curMaint
              curMemb).maintainers ∧
            u ∉ (finalTeamState team owners invites curMaint curMemb).members := key
        constructor
        · exact ⟨fun _ => Or.inl hM, fun _ => key2.1⟩
        · exact ⟨fun h => absurd h key2.2, fun h => absurd h.1 hm⟩
      · have hscrut : (((checkTeamMembershipPairs team owners invites curMaint
              curMemb).map Prod.snd).filter (fun c => c.user = u)) =
            [TeamCall.setRole u TeamRole.maintainer] := by
          rw [hfilter]
          simp [supposedMaintainerSweepFn, hM, hm, hcM, hcm, hninv]
        rw [hscrut] at key
        have key2 : u ∈ (finalTeamState team owners invites curMaint
              curMemb).maintainers ∧
            u ∉ (finalTeamState team owners invites curMaint curMemb).members := key
        constructor
        · exact ⟨fun _ => Or.inl hM, fun _ => key2.1⟩
        · exact ⟨fun h => absurd h key2.2, fun h => absurd h.1 hm⟩
  · by_cases hmem : u ∈ team.members
    · have hninv : u ∉ invites := hinv u (Or.inl hmem)
      by_cases hcM : u ∈ curMaint
      · have hcm : u ∉ curMemb := fun hx => hdc u hx hcM
        by_cases how : u ∈ owners
        · have hscrut : (((checkTeamMembershipPairs team owners invites curMaint
                curMemb).map Prod.snd).filter (fun c => c.user = u)) =
              ([] : List TeamCall) := by
            rw [hfilter]
            simp [maintainerSweepFn, supposedMemberSweepFn, hM, hmem, hcM, hcm,
              how, hninv]
          rw [hscrut] at key
          have key2 : (u ∈ (finalTeamState team owners invites curMaint
                curMemb).maintainers ↔ u ∈ curMaint) ∧
              (u ∈ (finalTeamState team owners invites curMaint curMemb).members ↔
                u ∈ curMemb) := key
          constructor
          · exact ⟨fun _ => Or.inr ⟨how, hmem, hcM⟩, fun _ => key2.1.mpr hcM⟩
          · exact ⟨fun h => absurd (key2.2.mp h) hcm, fun h => absurd ⟨how, hcM⟩ h.2⟩
        · have hscrut : (((checkTeamMembershipPairs team owners invites curMaint
                curMemb).map Prod.snd).filter (fun c => c.user = u)) =
              [TeamCall.setRole u TeamRole.member] := by
            rw [hfilter]
            simp [maintainerSweepFn, supposedMemberSweepFn, hM, hmem, hcM, hcm,
              how, hninv]
          rw [hscrut] at key
          have key2 : u ∉ (finalTeamState team owners invites curMaint
                curMemb).maintainers ∧
              u ∈ (finalTeamState team owners invites curMaint curMemb).members := key
          constructor
          · exact ⟨fun h => absurd h key2.1,
              fun h => h.elim (fun hx => absurd hx hM) (fun hx => absurd hx.1 how)⟩
          · exact ⟨fun _ => ⟨hmem, fun hx => how hx.1⟩, fun _ => key2.2⟩
      · by_cases hcm : u ∈ curMemb
        · have hscrut : (((checkTeamMembershipPairs team owners invites curMaint
                curMemb).map Prod.snd).filter (fun c => c.user = u)) =
              ([] : List TeamCall) := by
            rw [hfilter]
            simp [memberSweepFn, supposedMemberSweepFn, hM, hmem, hcM, hcm, hninv]
          rw [hscrut] at key
          have key2 : (u ∈ (finalTeamState team owners invites curMaint
                curMemb).maintainers ↔ u ∈ curMaint) ∧
              (u ∈ (finalTeamState team owners invites curMaint curMemb).members ↔
                u ∈ curMemb) := key
          constructor
          · exact ⟨fun h => absurd (key2.1.mp h) hcM,
              fun h => h.elim (fun hx => absurd hx hM) (fun hx => absurd hx.2.2 hcM)⟩
          · exact ⟨fun _ => ⟨hmem, fun hx => hcM hx.2⟩, fun _ => key2.2.mpr hcm⟩
        · have hscrut : (((checkTeamMembershipPairs team owners invites curMaint
                curMemb).map Prod.snd).filter (fun c => c.user = u)) =
              [TeamCall.setRole u TeamRole.member] := by
            rw [hfilter]
            simp [supposedMemberSweepFn, hM, hmem, hcM, hcm, hninv]
          rw [hscrut] at key
          have key2 : u ∉ (finalTeamState team owners invites curMaint
                curMemb).maintainers ∧
              u ∈ (finalTeamState team owners invites curMaint curMemb).members := key
          constructor
          · exact ⟨fun h => absurd h key2.1,
              fun h => h.elim (fun hx => absurd hx hM) (fun hx => absurd hx.2.2 hcM)⟩
          · exact ⟨fun _ => ⟨hmem, fun hx => hcM hx.2⟩, fun _ => key2.2⟩
    · by_cases hcM : u ∈ curMaint
      · have hcm : u ∉ curMemb := fun hx => hdc u hx hcM
        have hscrut : (((checkTeamMembershipPairs team owners invites curMaint
              curMemb).map Prod.snd).filter (fun c => c.user = u)) =
            [TeamCall.remove u] := by
          rw [hfilter]
          simp [maintainerSweepFn, hM, hmem, hcM, hcm]
        rw [hscrut] at key
        have key2 : u ∉ (finalTeamState team owners invites curMaint
              curMemb).maintainers ∧
            u ∉ (finalTeamState team owners invites curMaint curMemb).members := key
        constructor
        · exact ⟨fun h => absurd h key2.1,
            fun h => h.elim (fun hx => absurd hx hM) (fun hx => absurd hx.2.1 hmem)⟩
        · exact ⟨fun h => absurd h key2.2, fun h => absurd h.1 hmem⟩
      · by_cases hcm : u ∈ curMemb
        · have hscrut : (((checkTeamMembershipPairs team owners invites curMaint
                curMemb).map Prod.snd).filter (fun c => c.user = u)) =
              [TeamCall.remove u] := by
            rw [hfilter]
            simp [memberSweepFn, hM, hmem, hcM, hcm]
          rw [hscrut] at key
          have key2 : u ∉ (finalTeamState team owners invites curMaint
                curMemb).maintainers ∧
              u ∉ (finalTeamState team owners invites curMaint curMemb).members := key
          constructor
          · exact ⟨fun h => absurd h key2.1,
              fun h => h.elim (fun hx => absurd hx hM) (fun hx => absurd hx.2.1 hmem)⟩
          · exact ⟨fun h => absurd h key2.2, fun h => absurd h.1 hmem⟩
        · have hscrut : (((checkTeamMembershipPairs team owners invites curMaint
                curMemb).map Prod.snd).filter (fun c => c.user = u)) =
              ([] : List TeamCall) := by
            rw [hfilter]
            simp [hM, hmem, hcM, hcm]
          rw [hscrut] at key
          have key2 : (u ∈ (finalTeamState team owners invites curMaint
                curMemb).maintainers ↔ u ∈ curMaint) ∧
              (u ∈ (finalTeamState team owners invites curMaint curMemb).members ↔
                u ∈ curMemb) := key
          constructor
          · exact ⟨fun h => absurd (key2.1.mp h) hcM,
              fun h => h.elim (fun hx => absurd hx hM) (fun hx => absurd hx.2.2 hcM)⟩
          · exact ⟨fun h => absurd (key2.2.mp h) hcm, fun h => absurd h.1 hmem⟩

/-- C3 witness: the amended characterization applied to the org-owner
scenario of the counterexample. -/
theorem claim_C3_witness :
    ("alice" ∈ (finalTeamState ⟨"team", ["alice"], ["bob"], none, none⟩
        ["alice"] [] ["alice"] []).maintainers ↔
      "alice" ∈ (⟨"team", ["alice"], ["bob"], none, none⟩ : TeamConfig).maintainers ∨
        ("alice" ∈ ["alice"] ∧
          "alice" ∈ (⟨"team", ["alice"], ["bob"], none, none⟩ : TeamConfig).members ∧
          "alice" ∈ ["alice"])) ∧
    ("alice" ∈ (finalTeamState ⟨"team", ["alice"], ["bob"], none, none⟩
        ["alice"] [] ["alice"] []).members ↔
      "alice" ∈ (⟨"team", ["alice"], ["bob"], none, none⟩ : TeamConfig).members ∧
        ¬ ("alice" ∈ ["alice"] ∧ "alice" ∈ ["alice"])) :=
  claim_C3 ⟨"team", ["alice"], ["bob"], none, none⟩ ["alice"] [] ["alice"] []
    "alice" (by decide) (by decide) (fun x _ => List.not_mem_nil x)
    (by decide) (by decide) (by decide) (by decide)


theorem repoCreationLoop_dry_calls (org : String) (allRepos : List ObservedRepo) :
    ∀ l : List RepositoryConfig, (repoCreationLoop true org allRepos l).1 = [] := by
  intro l
  induction l with
  | nil => rfl
  | cons r rest ih =>
    simp only [repoCreationLoop]
    cases hf : allRepos.find? (fun x => r.name = x.name) with
    | none => simp
    | some o => simpa using ih

theorem repoCreationLoop_dry_halt (org : String) (allRepos : List ObservedRepo)
    (missing : RepositoryConfig) (post : List RepositoryConfig)
    (hmiss : allRepos.find? (fun r => missing.name = r.name) = none) :
    ∀ pre, repoCreationLoop true org allRepos (pre ++ missing :: post) =
      repoCreationLoop true org allRepos pre := by
  intro pre
  induction pre with
  | nil =>
    simp only [List.nil_append, repoCreationLoop]
    rw [hmiss]
    simp [repoCreationLoop]
  | cons r rest ih =>
    simp only [List.cons_append, repoCreationLoop]
    cases hf : allRepos.find? (fun x => r.name = x.name) with
    | none => simp
    | some o => simp [ih]

theorem repoCreationLoop_real_append (org : String) (allRepos : List ObservedRepo)
    (missing : RepositoryConfig) (post : List RepositoryConfig)
    (hmiss : allRepos.find? (fun r => missing.name = r.name) = none) :
    ∀ pre, (repoCreationLoop false org allRepos (pre ++ missing :: post)).2 =
      (repoCreationLoop false org allRepos pre).2 ++
        missing :: (repoCreationLoop false org allRepos post).2 := by
  intro pre
  induction pre with
  | nil =>
    simp only [List.nil_append, repoCreationLoop]
    rw [hmiss]
    simp
  | cons r rest ih =>
    simp only [List.cons_append, repoCreationLoop]
    cases hf : allRepos.find? (fun x => r.name = x.name) with
    | none => simp [ih]
    | some o => cases ha : o.archived <;> simp [ha, ih]

/-- C6, counterexample to the literal claim: with `beta` observed upstream
and `alpha` declared before it but missing, a dry run checks no repository
at all (the missing `alpha` breaks the loop, dropping `beta` too), while
the real run queues both. -/
theorem claim_C6_counterexample :
    (repoCreationLoop true "org" [⟨"beta", false, false, false, none⟩]
      [⟨"alpha", none, none, none, none, none, none⟩,
       ⟨"beta", none, none, none, none, none, none⟩]).2 = [] ∧
    (repoCreationLoop false "org" [⟨"beta", false, false, false, none⟩]
      [⟨"alpha", none, none, none, none, none, none⟩,
       ⟨"beta", none, none, none, none, none, none⟩]).2 =
      [⟨"alpha", none, none, none, none, none, none⟩,
       ⟨"beta", none, none, none, none, none, none⟩] := by
  constructor <;> rfl

/-- C6 (amended): in a dry run, a declared repository missing upstream
stops the whole creation loop — the run behaves as if the missing
repository and every repository declared after it were absent from the
config — and the loop issues no mutating call; in real mode the loop
creates the missing repository and still queues every other declared
repository around it. -/
theorem claim_C6 (org : String) (allRepos : List ObservedRepo)
    (pre post : List RepositoryConfig) (missing : RepositoryConfig)
    (hmiss : allRepos.find? (fun r => missing.name = r.name) = none) :
    repoCreationLoop true org allRepos (pre ++ missing :: post) =
      repoCreationLoop true org allRepos pre ∧
    (repoCreationLoop true org allRepos (pre ++ missing :: post)).1 = [] ∧
    (repoCreationLoop false org allRepos (pre ++ missing :: post)).2 =
      (repoCreationLoop false org allRepos pre).2 ++
        missing :: (repoCreationLoop false org allRepos post).2 :=
  ⟨repoCreationLoop_dry_halt org allRepos missing post hmiss pre,
   repoCreationLoop_dry_calls org allRepos _,
   repoCreationLoop_real_append org allRepos missing post hmiss pre⟩

/-- C6 witness: the amended halt law applied to the two-repository
scenario of the counterexample. -/
theorem claim_C6_witness :
    repoCreationLoop true "org" [⟨"beta", false, false, false, none⟩]
        ([] ++ (⟨"alpha", none, none, none, none, none, none⟩ : RepositoryConfig) ::
          [⟨"beta", none, none, none, none, none, none⟩]) =
      repoCreationLoop true "org" [⟨"beta", false, false, false, none⟩] [] ∧
    (repoCreationLoop true "org" [⟨"beta", false, false, false, none⟩]
        ([] ++ (⟨"alpha", none, none, none, none, none, none⟩ : RepositoryConfig) ::
          [⟨"beta", none, none, none, none, none, none⟩])).1 = [] ∧
    (repoCreationLoop false "org" [⟨"beta", false, false, false, none⟩]
        ([] ++ (⟨"alpha", none, none, none, none, none, none⟩ : RepositoryConfig) ::
          [⟨"beta", none, none, none, none, none, none⟩])).2 =
      (repoCreationLoop false "org" [⟨"beta", false, false, false, none⟩] []).2 ++
        (⟨"alpha", none, none, none, none, none, none⟩ : RepositoryConfig) ::
          (repoCreationLoop false "org" [⟨"beta", false, false, false, none⟩]
            [⟨"beta", none, none, none, none, none, none⟩]).2 :=
  claim_C6 "org" [⟨"beta", false, false, false, none⟩] []
    [⟨"beta", none, none, none, none, none, none⟩]
    ⟨"alpha", none, none, none, none, none, none⟩ (by rfl)


theorem inviteSyncLoop_error_critical (dry : Bool) (org : String)
    (pendingInvites : List String) (userLookup : String → Option (String × Nat)) :
    ∀ l bs, inviteSyncLoop dry org pendingInvites userLookup l = .error bs →
      ∃ bpre msg, bs = bpre ++ [Block.critical msg] := by
  intro l
  induction l with
  | nil =>
    intro bs h
    exact absurd h (by simp [inviteSyncLoop])
  | cons u rest ih =>
    intro bs h
    rw [inviteSyncLoop] at h
    split at h
    · exact ih bs h
    · cases hl : userLookup u with
      | none =>
        rw [hl] at h
        cases h
        exact ⟨[], _, rfl⟩
      | some p =>
        obtain ⟨canon, uid⟩ := p
        rw [hl] at h
        dsimp only at h
        split at h
        · cases h
          exact ⟨[], _, rfl⟩
        · cases hr : inviteSyncLoop dry org pendingInvites userLookup rest with
          | error bs2 =>
            rw [hr] at h
            cases h
            obtain ⟨bpre, msg, hb⟩ := ih bs2 hr
            exact ⟨Block.context (":blob-wave: Inviting user `" ++ u ++
              "` to the `" ++ org ++
              "` org as they are listed in a team but not invited yet") :: bpre,
              msg, by rw [hb]; rfl⟩
          | ok p2 =>
            obtain ⟨bs3, cs3⟩ := p2
            rw [hr] at h
            cases h

/-- C7, counterexample to the literal claim: the first organization lists
`Alice` in a team while the platform canonical login is `alice`; the sync
posts the critical alert and `main` returns, so the second organization —
whose own invitation stage would have succeeded — is never processed. -/
theorem claim_C7_counterexample :
    mainInviteReconcile false
      (fun _ => ⟨[], [], [], [], [],
        (fun u => if u = "Alice" then some ("alice", 42) else none),
        [], (fun n => ⟨-1, n, n, none, none⟩), (fun _ => ([], [])),
        (fun _ => ⟨[], [], [], none⟩), (fun n => ⟨n, false, false, false, none⟩),
        (fun _ => none), (fun _ => []), "Org"⟩)
      [⟨"org-one", ⟨false, none⟩, [⟨"t", ["Alice"], [], none, none⟩], [], none⟩,
       ⟨"org-two", ⟨false, none⟩, [], [], none⟩] =
      [("org-one",
        [Block.critical ("User \x22Alice\x22 not in \x22org-one\x22 organization and " ++
          "does not match name found on GitHub \x22alice\x22")], [])] ∧
    orgInviteStage false
      ⟨"org-two", ⟨false, none⟩, [], [], none⟩
      ⟨[], [], [], [], [],
        (fun u => if u = "Alice" then some ("alice", 42) else none),
        [], (fun n => ⟨-1, n, n, none, none⟩), (fun _ => ([], [])),
        (fun _ => ⟨[], [], [], none⟩), (fun n => ⟨n, false, false, false, none⟩),
        (fun _ => none), (fun _ => []), "Org"⟩ = .ok ([], []) := by
  constructor <;> rfl

/-- C7 (amended): when the invitation stage of an organization fails —
the user cannot be resolved or the canonical login differs in case — the
accumulated alerts end with a critical alert, and `main` returns
entirely: the failing organization is the last one processed, and every
organization after it in the config document is not reconciled at all. -/
theorem claim_C7 (dry : Bool) (envOf : String → OrgEnv)
    (pre post : List OrganizationConfig) (bad : OrganizationConfig)
    (bs : List Block)
    (hpre : ∀ config ∈ pre,
      ∃ r, orgInviteStage dry config (envOf config.organization) = .ok r)
    (hbad : orgInviteStage dry bad (envOf bad.organization) = .error bs) :
    mainInviteReconcile dry envOf (pre ++ bad :: post) =
      mainInviteReconcile dry envOf pre ++ [(bad.organization, bs, [])] ∧
    ∃ bpre msg, bs = bpre ++ [Block.critical msg] := by
  constructor
  · induction pre with
    | nil =>
      simp only [List.nil_append, mainInviteReconcile]
      rw [hbad]
    | cons c rest ih =>
      obtain ⟨⟨bs1, cs1⟩, hc⟩ := hpre c (List.mem_cons_self _ _)
      have ih2 := ih (fun config hm => hpre config (List.mem_cons_of_mem c hm))
      simp only [List.cons_append, mainInviteReconcile]
      rw [hc]
      dsimp only [List.append_eq]
      rw [ih2]
      simp
  · exact inviteSyncLoop_error_critical dry bad.organization
      (envOf bad.organization).pendingInvites (envOf bad.organization).userLookup
      _ bs hbad

/-- C7 witness: the amended halt law applied to the two-organization
scenario of the counterexample. -/
theorem claim_C7_witness :
    (mainInviteReconcile false
      (fun _ => ⟨[], [], [], [], [],
        (fun u => if u = "Alice" then some ("alice", 42) else none),
        [], (fun n => ⟨-1, n, n, none, none⟩), (fun _ => ([], [])),
        (fun _ => ⟨[], [], [], none⟩), (fun n => ⟨n, false, false, false, none⟩),
        (fun _ => none), (fun _ => []), "Org"⟩)
      ([] ++ (⟨"org-one", ⟨false, none⟩, [⟨"t", ["Alice"], [], none, none⟩], [],
          none⟩ : OrganizationConfig) ::
        [⟨"org-two", ⟨false, none⟩, [], [], none⟩]) =
      mainInviteReconcile false
        (fun _ => ⟨[], [], [], [], [],
          (fun u => if u = "Alice" then some ("alice", 42) else none),
          [], (fun n => ⟨-1, n, n, none, none⟩), (fun _ => ([], [])),
          (fun _ => ⟨[], [], [], none⟩), (fun n => ⟨n, false, false, false, none⟩),
          (fun _ => none), (fun _ => []), "Org"⟩) [] ++
        [("org-one",
          [Block.critical ("User \x22Alice\x22 not in \x22org-one\x22 organization " ++
            "and does not match name found on GitHub \x22alice\x22")], [])]) ∧
    ∃ bpre msg,
      [Block.critical ("User \x22Alice\x22 not in \x22org-one\x22 organization " ++
        "and does not match name found on GitHub \x22alice\x22")] =
        bpre ++ [Block.critical msg] :=
  claim_C7 false
    (fun _ => ⟨[], [], [], [], [],
      (fun u => if u = "Alice" then some ("alice", 42) else none),
      [], (fun n => ⟨-1, n, n, none, none⟩), (fun _ => ([], [])),
      (fun _ => ⟨[], [], [], none⟩), (fun n => ⟨n, false, false, false, none⟩),
      (fun _ => none), (fun _ => []), "Org"⟩)
    [] [⟨"org-two", ⟨false, none⟩, [], [], none⟩]
    ⟨"org-one", ⟨false, none⟩, [⟨"t", ["Alice"], [], none, none⟩], [], none⟩
    [Block.critical ("User \x22Alice\x22 not in \x22org-one\x22 organization " ++
      "and does not match name found on GitHub \x22alice\x22")]
    (fun config hc => absurd hc (List.not_mem_nil config))
    (by rfl)


theorem customPropertiesSweep_dry (org : String) (ex : List ExistingProperty) :
    ∀ l, (customPropertiesSweep true org ex l).2 = [] := by
  intro l
  induction l with
  | nil => rfl
  | cons p rest ih =>
    simp only [customPropertiesSweep]
    cases hf : ex.find? (fun e => e.property_name = p.property_name) with
    | none => simp [gated, ih]
    | some e =>
      dsimp only
      split <;> simp [gated, ih]

theorem customPropertiesSweep_dry_blocks (org : String) (ex : List ExistingProperty) :
    ∀ l, (customPropertiesSweep true org ex l).1 =
      (customPropertiesSweep false org ex l).1 := by
  intro l
  induction l with
  | nil => rfl
  | cons p rest ih =>
    simp only [customPropertiesSweep]
    cases hf : ex.find? (fun e => e.property_name = p.property_name) with
    | none => simp [ih]
    | some e =>
      dsimp only
      split <;> simp [ih]

theorem customPropertiesDeleteSweep_dry (org : String) (declared : List CustomProperty) :
    ∀ l, (customPropertiesDeleteSweep true org declared l).2 = [] := by
  intro l
  induction l with
  | nil => rfl
  | cons e rest ih =>
    simp only [customPropertiesDeleteSweep]
    split <;> simp [gated, ih]

theorem customPropertiesDeleteSweep_dry_blocks (org : String)
    (declared : List CustomProperty) :
    ∀ l, (customPropertiesDeleteSweep true org declared l).1 =
      (customPropertiesDeleteSweep false org declared l).1 := by
  intro l
  induction l with
  | nil => rfl
  | cons e rest ih =>
    simp only [customPropertiesDeleteSweep]
    split <;> simp [ih]

theorem customPropertiesStep_dry (config : OrganizationConfig)
    (ex : List ExistingProperty) : (customPropertiesStep true config ex).2 = [] := by
  simp only [customPropertiesStep]
  cases hc : config.customProperties with
  | none => rfl
  | some props =>
    dsimp only
    split
    · rfl
    · simp [customPropertiesSweep_dry, customPropertiesDeleteSweep_dry]

theorem customPropertiesStep_dry_blocks (config : OrganizationConfig)
    (ex : List ExistingProperty) :
    (customPropertiesStep true config ex).1 =
      (customPropertiesStep false config ex).1 := by
  simp only [customPropertiesStep]
  cases hc : config.customProperties with
  | none => rfl
  | some props =>
    dsimp only
    split
    · rfl
    · simp [customPropertiesSweep_dry_blocks, customPropertiesDeleteSweep_dry_blocks]

theorem missingTeamsDeleteStep_dry (org : String) (teams : List TeamConfig)
    (allTeams : List ObservedTeam) :
    (missingTeamsDeleteStep true org teams allTeams).2 = [] ∧
    (missingTeamsDeleteStep true org teams allTeams).1 =
      (missingTeamsDeleteStep false org teams allTeams).1 := by
  constructor
  · simp [missingTeamsDeleteStep, gated]
  · rfl

theorem checkRepoAddTeamsSweep_dry (repo : RepositoryConfig)
    (currentTeams : List ObservedTeamOnRepo)
    (findTeam : String → List Block × List MainCall × ObservedTeam) :
    ∀ l, (checkRepoAddTeamsSweep true repo currentTeams findTeam l).2 = [] := by
  intro l
  induction l with
  | nil => rfl
  | cons p rest ih =>
    obtain ⟨nm, lv⟩ := p
    simp only [checkRepoAddTeamsSweep]
    split <;> simp [ih]

theorem checkRepoInvitesSweep_dry (repo : RepositoryConfig) :
    ∀ l, (checkRepoInvitesSweep true repo l).2 = [] := by
  intro l
  induction l with
  | nil => rfl
  | cons i rest ih =>
    simp only [checkRepoInvitesSweep]
    cases hg : recordGet (repo.external_collaborators.getD []) i.inviteeLogin with
    | none => simp [gated, ih]
    | some lv =>
      dsimp only
      split <;> simp [gated, ih]

theorem checkRepoSettingsStep_dry (config : OrganizationConfig)
    (repo : RepositoryConfig) (octoRepo : ObservedRepo) :
    (checkRepoSettingsStep true config repo octoRepo).2 = [] := by
  simp only [checkRepoSettingsStep]
  split <;> simp [gated]

theorem checkRepoForkApprovalStep_dry (config : OrganizationConfig)
    (repo : RepositoryConfig) (fap : Option String) :
    (checkRepoForkApprovalStep true config repo fap).2 = [] := by
  simp only [checkRepoForkApprovalStep]
  split
  · split <;> simp [gated]
  · rfl

theorem checkRepoVisibilityStep_dry (repo : RepositoryConfig)
    (octoRepo : ObservedRepo) :
    (checkRepoVisibilityStep true repo octoRepo).2 = [] := by
  simp only [checkRepoVisibilityStep]
  split
  · rfl
  · split
    · rfl
    · cases octoRepo.stargazers_count with
      | none => rfl
      | some n =>
        dsimp only
        split <;> simp [gated]

theorem checkRepoAddCollaboratorsSweep_dry (repo : RepositoryConfig)
    (currentInvites : List ObservedInvite)
    (currentCollaborators : List ObservedCollaborator) :
    ∀ l, (checkRepoAddCollaboratorsSweep true repo currentInvites
      currentCollaborators l).2 = [] := by
  intro l
  induction l with
  | nil => rfl
  | cons p rest ih =>
    obtain ⟨nm, lv⟩ := p
    simp only [checkRepoAddCollaboratorsSweep]
    split <;> simp [gated, ih]

theorem checkRepoPropertiesStep_dry (config : OrganizationConfig)
    (repo : RepositoryConfig) (observedProps : List PropEntry) :
    (checkRepoPropertiesStep true config repo observedProps).2 = [] := by
  simp only [checkRepoPropertiesStep]
  cases hp : repo.properties with
  | none => rfl
  | some ps =>
    dsimp only
    split <;> simp [gated]

theorem checkRepoTeamsSweep_dry (org : String) (repo : RepositoryConfig) :
    ∀ l out, checkRepoTeamsSweep true org repo l = .ok out → out.2 = [] := by
  intro l
  induction l with
  | nil =>
    intro out h
    simp only [checkRepoTeamsSweep] at h
    cases h
    rfl
  | cons t rest ih =>
    intro out h
    simp only [checkRepoTeamsSweep, Bind.bind, Except.bind, pure, Except.pure] at h
    cases hg : recordGet (repo.teams.getD []) t.name with
    | none =>
      rw [hg] at h
      dsimp only at h
      cases hd : decodePerm t.permissions with
      | error e =>
        rw [hd] at h
        simp at h
      | ok lv =>
        rw [hd] at h
        dsimp only at h
        cases hr : checkRepoTeamsSweep true org repo rest with
        | error e =>
          rw [hr] at h
          simp at h
        | ok p2 =>
          rw [hr] at h
          dsimp only at h
          cases h
          simp [gated, ih p2 hr]
    | some lv0 =>
      rw [hg] at h
      dsimp only at h
      cases hd : decodePerm t.permissions with
      | error e =>
        rw [hd] at h
        simp at h
      | ok lv =>
        rw [hd] at h
        dsimp only at h
        split at h
        · cases hr : checkRepoTeamsSweep true org repo rest with
          | error e =>
            rw [hr] at h
            simp at h
          | ok p2 =>
            rw [hr] at h
            dsimp only at h
            cases h
            simp [gated, ih p2 hr]
        · cases hr : checkRepoTeamsSweep true org repo rest with
          | error e =>
            rw [hr] at h
            simp at h
          | ok p2 =>
            rw [hr] at h
            dsimp only at h
            cases h
            simp [gated, ih p2 hr]

theorem checkRepoCollaboratorsSweep_dry (repo : RepositoryConfig) :
    ∀ l out, checkRepoCollaboratorsSweep true repo l = .ok out → out.2 = [] := by
  intro l
  induction l with
  | nil =>
    intro out h
    simp only [checkRepoCollaboratorsSweep] at h
    cases h
    rfl
  | cons c rest ih =>
    intro out h
    simp only [checkRepoCollaboratorsSweep, Bind.bind, Except.bind, pure,
      Except.pure] at h
    cases hg : recordGet (repo.external_collaborators.getD []) c.login with
    | none =>
      rw [hg] at h
      dsimp only at h
      cases hd : decodePerm c.permissions with
      | error e =>
        rw [hd] at h
        simp at h
      | ok lv =>
        rw [hd] at h
        dsimp only at h
        cases hr : checkRepoCollaboratorsSweep true repo rest with
        | error e =>
          rw [hr] at h
          simp at h
        | ok p2 =>
          rw [hr] at h
          dsimp only at h
          cases h
          simp [gated, ih p2 hr]
    | some lv0 =>
      rw [hg] at h
      dsimp only at h
      cases hd : decodePerm c.permissions with
      | error e =>
        rw [hd] at h
        simp at h
      | ok lv =>
        rw [hd] at h
        dsimp only at h
        split at h
        · cases hr : checkRepoCollaboratorsSweep true repo rest with
          | error e =>
            rw [hr] at h
            simp at h
          | ok p2 =>
            rw [hr] at h
            dsimp only at h
            cases h
            simp [gated, ih p2 hr]
        · cases hr : checkRepoCollaboratorsSweep true repo rest with
          | error e =>
            rw [hr] at h
            simp at h
          | ok p2 =>
            rw [hr] at h
            dsimp only at h
            cases h
            simp [gated, ih p2 hr]

theorem checkRepoRulesetsSweep_dry (repo : RepositoryConfig)
    (allTeams : List ObservedTeam) (expected : List Ruleset) :
    ∀ l out, checkRepoRulesetsSweep true repo allTeams expected l = .ok out →
      out.2 = [] := by
  intro l
  induction l with
  | nil =>
    intro out h
    simp only [checkRepoRulesetsSweep] at h
    cases h
    rfl
  | cons rs rest ih =>
    intro out h
    simp only [checkRepoRulesetsSweep, Bind.bind, Except.bind, pure,
      Except.pure] at h
    cases hf : expected.find? (fun r => r.name = rs.name) with
    | none =>
      rw [hf] at h
      dsimp only at h
      cases hr : checkRepoRulesetsSweep true repo allTeams expected rest with
      | error e =>
        rw [hr] at h
        simp at h
      | ok p2 =>
        rw [hr] at h
        dsimp only at h
        cases h
        simp [gated, ih p2 hr]
    | some er =>
      rw [hf] at h
      dsimp only at h
      cases hg : rulesetToGithub er allTeams with
      | error e =>
        rw [hg] at h
        simp at h
      | ok g =>
        rw [hg] at h
        dsimp only at h
        split at h
        · cases hr : checkRepoRulesetsSweep true repo allTeams expected rest with
          | error e =>
            rw [hr] at h
            simp at h
          | ok p2 =>
            rw [hr] at h
            dsimp only at h
            cases h
            simp [gated, ih p2 hr]
        · cases hr : checkRepoRulesetsSweep true repo allTeams expected rest with
          | error e =>
            rw [hr] at h
            simp at h
          | ok p2 =>
            rw [hr] at h
            dsimp only at h
            cases h
            simp [gated, ih p2 hr]

theorem checkRepoRulesetsAdd_dry (repo : RepositoryConfig)
    (allTeams : List ObservedTeam) :
    ∀ l out, checkRepoRulesetsAdd true repo allTeams l = .ok out →
      out.2 = [] := by
  intro l
  induction l with
  | nil =>
    intro out h
    simp only [checkRepoRulesetsAdd] at h
    cases h
    rfl
  | cons rs rest ih =>
    intro out h
    simp only [checkRepoRulesetsAdd, Bind.bind, Except.bind, pure,
      Except.pure] at h
    cases hg : rulesetToGithub rs allTeams with
    | error e =>
      rw [hg] at h
      simp at h
    | ok g =>
      rw [hg] at h
      dsimp only at h
      cases hr : checkRepoRulesetsAdd true repo allTeams rest with
      | error e =>
        rw [hr] at h
        simp at h
      | ok p2 =>
        rw [hr] at h
        dsimp only at h
        cases h
        simp [gated, ih p2 hr]

theorem checkRepoRulesetsStep_dry (repo : RepositoryConfig)
    (allTeams : List ObservedTeam) (currentRulesets : Option (List ObservedRuleset)) :
    ∀ out, checkRepoRulesetsStep true repo allTeams currentRulesets = .ok out →
      out.2 = [] := by
  intro out h
  simp only [checkRepoRulesetsStep, Bind.bind, Except.bind, pure,
    Except.pure] at h
  cases hx : repo.rulesets with
  | none =>
    rw [hx] at h
    dsimp only at h
    cases h
    rfl
  | some expected =>
    rw [hx] at h
    cases hy : currentRulesets with
    | none =>
      rw [hy] at h
      dsimp only at h
      cases h
      rfl
    | some current =>
      rw [hy] at h
      dsimp only at h
      cases h1 : checkRepoRulesetsSweep true repo allTeams expected current with
      | error e =>
        rw [h1] at h
        simp at h
      | ok p1 =>
        rw [h1] at h
        dsimp only at h
        cases h2 : checkRepoRulesetsAdd true repo allTeams
            (expected.filter fun ruleset =>
              !(current.any fun r => r.name = ruleset.name)) with
        | error e =>
          rw [h2] at h
          simp at h
        | ok p2 =>
          rw [h2] at h
          dsimp only at h
          cases h
          simp [checkRepoRulesetsSweep_dry repo allTeams expected current p1 h1,
            checkRepoRulesetsAdd_dry repo allTeams _ p2 h2]

theorem checkRepository_dry (config : OrganizationConfig) (repo : RepositoryConfig)
    (meta : RepoMetadata) (octoRepo : ObservedRepo) (fap : Option String)
    (oprops : List PropEntry) (allTeams : List ObservedTeam)
    (findTeam : String → List Block × List MainCall × ObservedTeam) :
    ∀ out, checkRepository true config repo meta octoRepo fap oprops allTeams
      findTeam = .ok out → out.2 = [] := by
  intro out h
  simp only [checkRepository, Bind.bind, Except.bind, pure, Except.pure] at h
  cases h1 : checkRepoTeamsSweep true config.organization repo meta.currentTeams with
  | error e =>
    rw [h1] at h
    simp at h
  | ok p1 =>
    rw [h1] at h
    dsimp only at h
    cases h4 : checkRepoCollaboratorsSweep true repo meta.currentCollaborators with
    | error e =>
      rw [h4] at h
      simp at h
    | ok p4 =>
      rw [h4] at h
      dsimp only at h
      cases h10 : checkRepoRulesetsStep true repo allTeams meta.currentRulesets with
      | error e =>
        rw [h10] at h
        simp at h
      | ok p10 =>
        rw [h10] at h
        dsimp only at h
        cases h
        simp [checkRepoTeamsSweep_dry config.organization repo meta.currentTeams p1 h1,
          checkRepoCollaboratorsSweep_dry repo meta.currentCollaborators p4 h4,
          checkRepoRulesetsStep_dry repo allTeams meta.currentRulesets p10 h10,
          checkRepoAddTeamsSweep_dry, checkRepoInvitesSweep_dry,
          checkRepoSettingsStep_dry, checkRepoForkApprovalStep_dry,
          checkRepoVisibilityStep_dry, checkRepoAddCollaboratorsSweep_dry,
          checkRepoPropertiesStep_dry]

theorem findTeamByName_dry (org : String) (created : String → ObservedTeam)
    (allTeams : List ObservedTeam) (name : String) :
    ∀ out, findTeamByName true org created allTeams name = .ok out →
      out.2.1 = [] := by
  intro out h
  simp only [findTeamByName] at h
  split at h
  · exact absurd h (by simp)
  · split at h
    · cases h
      rfl
    · cases h
      rfl

theorem checkTeam_dry (config : OrganizationConfig) (env : OrgEnv)
    (allTeams : List ObservedTeam) (team : TeamConfig) (users : List String) :
    ∀ out, checkTeam true config env allTeams team users = .ok out →
      out.2.1 = [] := by
  intro out h
  simp only [checkTeam] at h
  cases hf : findTeamByName true config.organization env.createdTeam allTeams
      team.name with
  | error e =>
    rw [hf] at h
    simp at h
  | ok q =>
    obtain ⟨b0, c0, octoTeam, allTeams1⟩ := q
    have hc0 : c0 = [] := by
      simpa using findTeamByName_dry config.organization env.createdTeam allTeams
        team.name (b0, c0, octoTeam, allTeams1) hf
    rw [hf] at h
    dsimp only at h
    cases hp : team.parent with
    | none =>
      rw [hp] at h
      dsimp only at h
      cases h
      split <;> split <;> simp [gated, hc0]
    | some parentName =>
      rw [hp] at h
      dsimp only at h
      split at h
      · simp at h
      · rename_i pres b2 c2 ats2 heq
        split at heq
        · cases heq
          cases h
          split <;> split <;> simp [gated, hc0]
        · rw [if_pos True.intro] at heq
          cases heq
          cases h
          split <;> split <;> simp [gated, hc0]

theorem inviteSyncLoop_dry_calls (org : String) (pend : List String)
    (ul : String → Option (String × Nat)) :
    ∀ l out, inviteSyncLoop true org pend ul l = .ok out → out.2 = [] := by
  intro l
  induction l with
  | nil =>
    intro out h
    simp only [inviteSyncLoop] at h
    cases h
    rfl
  | cons u rest ih =>
    intro out h
    rw [inviteSyncLoop] at h
    split at h
    · exact ih out h
    · cases hl : ul u with
      | none =>
        rw [hl] at h
        simp at h
      | some p =>
        obtain ⟨canon, uid⟩ := p
        rw [hl] at h
        dsimp only at h
        split at h
        · simp at h
        · cases hr : inviteSyncLoop true org pend ul rest with
          | error bs2 =>
            rw [hr] at h
            simp at h
          | ok p2 =>
            obtain ⟨bs3, cs3⟩ := p2
            rw [hr] at h
            dsimp only at h
            cases h
            simpa [gated] using ih (bs3, cs3) hr

/-- C1: with the dry-run flag set (the literal argument absent from the
process arguments), every reconcile step of the embedding issues zero
mutating platform calls — the custom-property sync, the invitation sync,
the orphan-team deletion, the team reconcile, the repository creation
loop and the whole repository reconcile — while the textual alert blocks
of the call-independent steps are unchanged, and the token narrowing
grants read on all four scopes regardless of the caller's read-only
flag. -/
theorem claim_C1 (argv : List String) (force : Bool)
    (config : OrganizationConfig) (env : OrgEnv)
    (org : String) (teams : List TeamConfig) (allTeams : List ObservedTeam)
    (pend : List String) (ul : String → Option (String × Nat)) (l : List String)
    (invOut : List Block × List MainCall)
    (allRepos : List ObservedRepo) (repos : List RepositoryConfig)
    (team : TeamConfig) (users : List String)
    (tout : List Block × List MainCall × List ObservedTeam)
    (repo : RepositoryConfig) (meta : RepoMetadata) (octoRepo : ObservedRepo)
    (fap : Option String) (oprops : List PropEntry)
    (findTeam : String → List Block × List MainCall × ObservedTeam)
    (rout : List Block × List MainCall)
    (hargv : argv.contains "--do-it-for-real-this-time" = false)
    (hinvite : inviteSyncLoop true org pend ul l = .ok invOut)
    (hteam : checkTeam true config env allTeams team users = .ok tout)
    (hrepo : checkRepository true config repo meta octoRepo fap oprops allTeams
      findTeam = .ok rout) :
    isDryRun argv = true ∧
    getAuthNarrowing true force = ⟨"read", "read", "read", "read"⟩ ∧
    (customPropertiesStep true config env.existingProperties).2 = [] ∧
    (customPropertiesStep true config env.existingProperties).1 =
      (customPropertiesStep false config env.existingProperties).1 ∧
    invOut.2 = [] ∧
    (missingTeamsDeleteStep true org teams allTeams).2 = [] ∧
    (missingTeamsDeleteStep true org teams allTeams).1 =
      (missingTeamsDeleteStep false org teams allTeams).1 ∧
    tout.2.1 = [] ∧
    (repoCreationLoop true org allRepos repos).1 = [] ∧
    rout.2 = [] := by
  refine ⟨?_, rfl, customPropertiesStep_dry config env.existingProperties,
    customPropertiesStep_dry_blocks config env.existingProperties,
    inviteSyncLoop_dry_calls org pend ul l invOut hinvite,
    (missingTeamsDeleteStep_dry org teams allTeams).1,
    (missingTeamsDeleteStep_dry org teams allTeams).2,
    checkTeam_dry config env allTeams team users tout hteam,
    repoCreationLoop_dry_calls org allRepos repos,
    checkRepository_dry config repo meta octoRepo fap oprops allTeams findTeam
      rout hrepo⟩
  simp only [isDryRun]
  rw [hargv]
  rfl

/-- C1 witness: the dry-run guarantees applied to a small concrete
organization. -/
theorem claim_C1_witness :
    isDryRun ["node", "sheriff"] = true ∧
    getAuthNarrowing true true = ⟨"read", "read", "read", "read"⟩ ∧
    (customPropertiesStep true
      (⟨"org-one", ⟨false, none⟩, [], [], none⟩ : OrganizationConfig)
      (⟨[], [], [], [], [], (fun _ => none), [],
        (fun n => ⟨-1, n, n, none, none⟩), (fun _ => ([], [])),
        (fun _ => ⟨[], [], [], none⟩), (fun n => ⟨n, false, false, false, none⟩),
        (fun _ => none), (fun _ => []), "Org"⟩ : OrgEnv).existingProperties).2 = [] ∧
    (customPropertiesStep true
      (⟨"org-one", ⟨false, none⟩, [], [], none⟩ : OrganizationConfig)
      (⟨[], [], [], [], [], (fun _ => none), [],
        (fun n => ⟨-1, n, n, none, none⟩), (fun _ => ([], [])),
        (fun _ => ⟨[], [], [], none⟩), (fun n => ⟨n, false, false, false, none⟩),
        (fun _ => none), (fun _ => []), "Org"⟩ : OrgEnv).existingProperties).1 =
      (customPropertiesStep false
        (⟨"org-one", ⟨false, none⟩, [], [], none⟩ : OrganizationConfig)
        (⟨[], [], [], [], [], (fun _ => none), [],
          (fun n => ⟨-1, n, n, none, none⟩), (fun _ => ([], [])),
          (fun _ => ⟨[], [], [], none⟩), (fun n => ⟨n, false, false, false, none⟩),
          (fun _ => none), (fun _ => []), "Org"⟩ : OrgEnv).existingProperties).1 ∧
    (([], []) : List Block × List MainCall).2 = [] ∧
    (missingTeamsDeleteStep true "org-one" []
      [⟨1, "t", "t", some "closed", none⟩]).2 = [] ∧
    (missingTeamsDeleteStep true "org-one" []
      [⟨1, "t", "t", some "closed", none⟩]).1 =
      (missingTeamsDeleteStep false "org-one" []
        [⟨1, "t", "t", some "closed", none⟩]).1 ∧
    (([], [], [⟨1, "t", "t", some "closed", none⟩]) :
      List Block × List MainCall × List ObservedTeam).2.1 = [] ∧
    (repoCreationLoop true "org-one" [⟨"r", false, false, false, some 0⟩]
      [⟨"r", none, none, none, none, none, none⟩]).1 = [] ∧
    (([], []) : List Block × List MainCall).2 = [] :=
  claim_C1 ["node", "sheriff"] true
    ⟨"org-one", ⟨false, none⟩, [], [], none⟩
    ⟨[], [], [], [], [], (fun _ => none), [],
      (fun n => ⟨-1, n, n, none, none⟩), (fun _ => ([], [])),
      (fun _ => ⟨[], [], [], none⟩), (fun n => ⟨n, false, false, false, none⟩),
      (fun _ => none), (fun _ => []), "Org"⟩
    "org-one" [] [⟨1, "t", "t", some "closed", none⟩]
    [] (fun _ => none) [] ([], [])
    [⟨"r", false, false, false, some 0⟩] [⟨"r", none, none, none, none, none, none⟩]
    ⟨"t", [], [], none, none⟩ []
    ([], [], [⟨1, "t", "t", some "closed", none⟩])
    ⟨"r", none, none, none, none, none, none⟩ ⟨[], [], [], none⟩
    ⟨"r", false, false, false, some 0⟩ none []
    (fun _ => ([], [], ⟨1, "t", "t", none, none⟩))
    ([], [])
    (by rfl) (by rfl) (by rfl) (by rfl)

end Sheriff
